import Mathlib

/-!
# routestats: route statistics from CSV routing data

A shallow embedding of `main.go` (Klaus-Tockloth/routestats) and the properties of its
classification and aggregation passes.

Conventions of the embedding.

* A Go `string` is represented by a Lean `String` (its sequence of characters).  All the
  strings the program compares against are ASCII, so matching a leading piece, cutting it
  off and splitting on a space act on characters exactly as they act on bytes.
* A Go `int` is a 64-bit two's-complement integer.  It is represented by an `Int`, and every
  addition and subtraction of the program is followed by `wrapInt`.
* A Go `map[string]int` is represented by a list of key/value pairs with distinct keys.
* A CSV record is represented by a structure with the thirteen fields of the input schema.
-/

namespace Routestats

/-! ## Go `int` -/

/-- The largest Go `int` (`math.MaxInt`) on a 64-bit platform. -/
def maxInt : Int := 9223372036854775807

/-- The smallest Go `int` on a 64-bit platform. -/
def minInt : Int := -9223372036854775808

/-- Two's-complement wrap-around of an exact integer into the range of a 64-bit `int`. -/
def wrapInt (x : Int) : Int :=
  (x + 9223372036854775808) % 18446744073709551616 - 9223372036854775808

/-- Go `a + b` on `int`. -/
def addInt (a b : Int) : Int := wrapInt (a + b)

/-- Go `a - b` on `int`. -/
def subInt (a b : Int) : Int := wrapInt (a - b)

/-- The exact integer `x` is a value of type `int`. -/
def InIntRange (x : Int) : Prop := minInt ≤ x ∧ x ≤ maxInt

instance (x : Int) : Decidable (InIntRange x) := by
  unfold InIntRange; infer_instance

/-! ## Go `strings` -/

/-- Go `strings.HasPrefix(s, p)`. -/
def hasPrefix (s p : String) : Bool := p.data.isPrefixOf s.data

/-- Go `strings.CutPrefix(s, p)`, first result: `s` without the leading `p`, or `s` itself
when `s` does not start with `p`. -/
def cutPrefix (s p : String) : String :=
  if hasPrefix s p then ⟨s.data.drop p.data.length⟩ else s

/-- Splitting of a character sequence at every occurrence of the separator `sep`. -/
def splitChars (sep : Char) : List Char → List (List Char)
  | [] => [[]]
  | c :: cs =>
    if c = sep then [] :: splitChars sep cs
    else
      match splitChars sep cs with
      | [] => [[c]]
      | t :: ts => (c :: t) :: ts

/-- Go `strings.Split(s, sep)` for a separator of one character. -/
def split (s : String) (sep : Char) : List String :=
  (splitChars sep s.data).map String.mk

/-! ## Go `strconv.Atoi` -/

/-- The two kinds of error of `strconv` (`ErrSyntax`, `ErrRange`). -/
inductive NumError where
  | errSyntax
  | errRange
  deriving DecidableEq, Repr

/-- The largest `uint64`. -/
def maxUint64 : Nat := 18446744073709551615

/-- The digit loop of `strconv.ParseUint(s, 10, 64)`, with `n` the value read so far.  A
byte that is not a decimal digit is a syntax error; an overflow is reported as soon as it
happens, before the remaining bytes are looked at. -/
def parseUintLoop : List Char → Nat → Nat × Option NumError
  | [], n => (n, none)
  | c :: cs, n =>
    if 48 ≤ c.toNat ∧ c.toNat ≤ 57 then
      if n ≥ maxUint64 / 10 + 1 then (maxUint64, some NumError.errRange)
      else
        let n1 := n * 10 + (c.toNat - 48)
        if n1 > maxUint64 then (maxUint64, some NumError.errRange)
        else parseUintLoop cs n1
    else (0, some NumError.errSyntax)

/-- Go `strconv.ParseUint(s, 10, 64)`. -/
def parseUint (s : List Char) : Nat × Option NumError :=
  if s = [] then (0, some NumError.errSyntax) else parseUintLoop s 0

/-- Go `strconv.ParseInt(s, 10, 0)` with a 64-bit `int`. -/
def parseInt (s : List Char) : Int × Option NumError :=
  match s with
  | [] => (0, some NumError.errSyntax)
  | c :: cs =>
    let neg := decide (c = '-')
    let body := if c = '+' ∨ c = '-' then cs else s
    match parseUint body with
    | (_, some NumError.errSyntax) => (0, some NumError.errSyntax)
    | (un, _) =>
      if !neg && decide (un ≥ 9223372036854775808) then
        (9223372036854775807, some NumError.errRange)
      else if neg && decide (un > 9223372036854775808) then
        (-9223372036854775808, some NumError.errRange)
      else (if neg then -(un : Int) else (un : Int), none)

/-- The digit loop of the fast path of `strconv.Atoi`. -/
def atoiFastLoop : List Char → Nat → Option Nat
  | [], n => some n
  | c :: cs, n =>
    if 48 ≤ c.toNat ∧ c.toNat ≤ 57 then atoiFastLoop cs (n * 10 + (c.toNat - 48))
    else none

/-- The fast path of `strconv.Atoi`, taken for strings of 1 to 18 bytes. -/
def atoiFast (s : List Char) : Int × Option NumError :=
  match s with
  | [] => (0, some NumError.errSyntax)
  | c :: cs =>
    let body := if c = '-' ∨ c = '+' then cs else s
    if body = [] then (0, some NumError.errSyntax)
    else
      match atoiFastLoop body 0 with
      | none => (0, some NumError.errSyntax)
      | some n => (if c = '-' then -(n : Int) else (n : Int), none)

/-- Go `strconv.Atoi(s)` on a 64-bit platform: the value and the error (`none` for `nil`). -/
def atoi (s : String) : Int × Option NumError :=
  if 0 < s.utf8ByteSize ∧ s.utf8ByteSize < 19 then atoiFast s.data else parseInt s.data

/-! ## Records -/

/-- A CSV record: the thirteen fields named by the constants `Longitude` .. `Energy`. -/
structure Record where
  longitude : String
  latitude : String
  elevation : String
  distance : String
  costPerKm : String
  elevCost : String
  turnCost : String
  nodeCost : String
  initialCost : String
  wayTags : String
  nodeTags : String
  time : String
  energy : String

/-- A record with the given elevation, distance and way-tags and all other fields empty. -/
def mkRecord (elevation distance wayTags : String) : Record :=
  { longitude := "", latitude := "", elevation := elevation, distance := distance,
    costPerKm := "", elevCost := "", turnCost := "", nodeCost := "", initialCost := "",
    wayTags := wayTags, nodeTags := "", time := "", energy := "" }

/-- The header record of the input of brouter. -/
def headerRecord : Record :=
  { longitude := "Longitude", latitude := "Latitude", elevation := "Elevation",
    distance := "Distance", costPerKm := "CostPerKm", elevCost := "ElevCost",
    turnCost := "TurnCost", nodeCost := "NodeCost", initialCost := "InitialCost",
    wayTags := "WayTags", nodeTags := "NodeTags", time := "Time", energy := "Energy" }

/-- The value of `distance, _ := strconv.Atoi(record[Distance])`. -/
def distanceOf (record : Record) : Int := (atoi record.distance).1

/-- The value of `elevation, _ := strconv.Atoi(record[Elevation])`. -/
def elevationOf (record : Record) : Int := (atoi record.elevation).1

/-- The value of `waytags := strings.Split(record[WayTags], " ")`. -/
def waytagsOf (record : Record) : List String := split record.wayTags ' '

/-! ## Tag classification -/

/-- The inner loop of `getHighwayIdentifier`: the first way-tag starting with `tracktype=`
appends its value in parentheses to `highwayIdentifier`; without one it is unchanged. -/
def findTracktype (highwayIdentifier : String) : List String → String
  | [] => highwayIdentifier
  | waytag :: rest =>
    if hasPrefix waytag "tracktype=" then
      highwayIdentifier ++ " (" ++ cutPrefix waytag "tracktype=" ++ ")"
    else findTracktype highwayIdentifier rest

/-- The outer loop of `getHighwayIdentifier` over the remaining way-tags; `waytags` is the
whole list, which the inner loop scans from its start. -/
def getHighwayIdentifierLoop (waytags : List String) : List String → String → String
  | [], highwayIdentifier => highwayIdentifier
  | waytag :: rest, highwayIdentifier =>
    if hasPrefix waytag "highway" then
      if waytag = "highway=track" then
        getHighwayIdentifierLoop waytags rest (findTracktype waytag waytags)
      else getHighwayIdentifierLoop waytags rest waytag
    else getHighwayIdentifierLoop waytags rest highwayIdentifier

/-- Go `getHighwayIdentifier(waytags)`. -/
def getHighwayIdentifier (waytags : List String) : String :=
  getHighwayIdentifierLoop waytags waytags ""

/-- The surface values of the first `case` of `isPaved`. -/
def pavedSurfaces : List String :=
  ["paved", "asphalt", "chipseal", "concrete",
   "concrete:lanessurface", "concrete:plates", "paving_stonessurface", "sett",
   "unhewn_cobblestone", "cobblestone", "cobblestone:flattened", "brick",
   "metal", "wood", "stepping_stones", "rubber"]

/-- The surface values of the second `case` of `isPaved`. -/
def unpavedSurfaces : List String :=
  ["unpaved", "compacted", "fine_gravel", "gravel",
   "shells", "rock", "pebblestone", "ground",
   "dirt", "earth", "grass", "grass_paver",
   "metal_grid", "mud", "sand", "woodchips",
   "snow", "ice", "salt"]

/-- The highway identifiers of the `case` of the final `switch` of `isPaved`. -/
def unpavedHighways : List String :=
  ["highway=track", "highway=track (grade2)", "highway=track (grade3)",
   "highway=track (grade4)", "highway=track (grade5)",
   "highway=service (grade2)", "highway=service (grade3)", "highway=service (grade4)",
   "highway=service (grade5)",
   "highway=path"]

/-- Go `isPaved(waytags, highway)`. -/
def isPaved (waytags : List String) (highway : String) : Bool :=
  match waytags with
  | [] => if highway ∈ unpavedHighways then false else true
  | waytag :: rest =>
    if hasPrefix waytag "surface=" then
      if cutPrefix waytag "surface=" ∈ pavedSurfaces then true
      else if cutPrefix waytag "surface=" ∈ unpavedSurfaces then false
      else isPaved rest highway
    else isPaved rest highway

/-- The loop `for _, waytag := range waytags { if strings.HasPrefix(waytag, p) { label = waytag } }`
shared by the surface, smoothness, mtb:scale and sac_scale passes, started with `label`. -/
def lastWithPrefix (p : String) : List String → String → String
  | [], label => label
  | waytag :: rest, label =>
    if hasPrefix waytag p then lastWithPrefix p rest waytag else lastWithPrefix p rest label

/-- The surface label of the surfaces pass. -/
def surfaceLabel (waytags : List String) : String :=
  let surface := lastWithPrefix "surface" waytags ""
  if surface = "" then
    if isPaved waytags (getHighwayIdentifier waytags) then "default=paved"
    else "default=unpaved"
  else surface

/-- The smoothness label of the smoothness pass. -/
def smoothnessLabel (waytags : List String) : String :=
  lastWithPrefix "smoothness" waytags "default=unknown"

/-- The mtb:scale label of the mountain bike pass. -/
def mtbScaleLabel (waytags : List String) : String :=
  lastWithPrefix "mtb:scale" waytags "default=unknown"

/-- The sac_scale label of the hiking pass. -/
def sacScaleLabel (waytags : List String) : String :=
  lastWithPrefix "sac_scale" waytags "default=unknown"

/-! ## Frequency tables -/

/-- A Go `map[string]int`: key/value pairs, each key at most once. -/
abbrev Table := List (String × Int)

/-- The keys of a table, as ranged over by `for key := range table`. -/
def tableKeys (table : Table) : List String := table.map Prod.fst

/-- Go `table[key]`: the stored value, or `0` when the key is absent. -/
def tableGet : Table → String → Int
  | [], _ => 0
  | (k, v) :: rest, key => if k = key then v else tableGet rest key

/-- Go `table[key] = value`: overwrites the value of a present key, inserts an absent one. -/
def tableSet : Table → String → Int → Table
  | [], key, value => [(key, value)]
  | (k, v) :: rest, key, value =>
    if k = key then (k, value) :: rest else (k, v) :: tableSet rest key value

/-- The body of a frequency pass for one data record: `a1 := table[label]` and
`table[label] = a1 + distance`, with `label` the classifier of the pass. -/
def tableStep (label : List String → String) (table : Table) (record : Record) : Table :=
  let distance := distanceOf record
  let waytags := waytagsOf record
  let key := label waytags
  let a1 := tableGet table key
  tableSet table key (addInt a1 distance)

/-- A frequency pass over `records`: the record at index 0 (the CSV header) is skipped, the
table starts empty. -/
def tablePass (label : List String → String) (records : List Record) : Table :=
  (records.drop 1).foldl (tableStep label) []

/-- The pass that builds `highways`. -/
def highwaysPass (records : List Record) : Table := tablePass getHighwayIdentifier records

/-- The pass that builds `surfaces`. -/
def surfacesPass (records : List Record) : Table := tablePass surfaceLabel records

/-- The pass that builds `smoothness`. -/
def smoothnessPass (records : List Record) : Table := tablePass smoothnessLabel records

/-- The pass that builds `mtbScales`. -/
def mtbScalesPass (records : List Record) : Table := tablePass mtbScaleLabel records

/-- The pass that builds `sacScales`. -/
def sacScalesPass (records : List Record) : Table := tablePass sacScaleLabel records

/-- The report loop `for key := range table { distanceTotal += table[key] }`. -/
def tableTotal (table : Table) : Int :=
  (tableKeys table).foldl (fun distanceTotal key => addInt distanceTotal (tableGet table key)) 0

/-! ## Paved and unpaved -/

/-- The two counters of the paved/unpaved pass. -/
structure PavedState where
  highwaysPaved : Int
  highwaysUnpaved : Int
  deriving DecidableEq, Repr

/-- The body of the paved/unpaved pass for one data record. -/
def pavedStep (s : PavedState) (record : Record) : PavedState :=
  let distance := distanceOf record
  let waytags := waytagsOf record
  let highwayIdentifier := getHighwayIdentifier waytags
  if isPaved waytags highwayIdentifier then
    { s with highwaysPaved := addInt s.highwaysPaved distance }
  else
    { s with highwaysUnpaved := addInt s.highwaysUnpaved distance }

/-- The paved/unpaved pass: header skipped, both counters start at 0. -/
def pavedPass (records : List Record) : PavedState :=
  (records.drop 1).foldl pavedStep { highwaysPaved := 0, highwaysUnpaved := 0 }

/-- Go `distanceTotal = highwaysUnpaved + highwaysPaved`. -/
def pavedTotal (s : PavedState) : Int := addInt s.highwaysUnpaved s.highwaysPaved

/-! ## Altitude meters -/

/-- Go `deepestPointOnLand`. -/
def deepestPointOnLand : Int := -430

/-- The variables of the elevation pass. -/
structure ElevationState where
  lastElevation : Int
  metersDownhill : Int
  metersUphill : Int
  altitudeMetersMin : Int
  altitudeMetersMax : Int
  deriving DecidableEq, Repr

/-- The variables before the elevation pass: `lastElevation := math.MaxInt`, the package
variables at their zero value. -/
def elevationInit : ElevationState :=
  { lastElevation := maxInt, metersDownhill := 0, metersUphill := 0,
    altitudeMetersMin := 0, altitudeMetersMax := 0 }

/-- The body of the elevation pass once `elevation` has been parsed. -/
def elevationUpdate (s : ElevationState) (elevation : Int) : ElevationState :=
  if elevation < deepestPointOnLand then s
  else if s.lastElevation = maxInt then
    { s with lastElevation := elevation, altitudeMetersMin := elevation,
             altitudeMetersMax := elevation }
  else
    let s1 : ElevationState :=
      if elevation > s.lastElevation then
        { s with metersUphill := addInt s.metersUphill (subInt elevation s.lastElevation) }
      else
        { s with metersDownhill := addInt s.metersDownhill (subInt elevation s.lastElevation) }
    let s2 : ElevationState :=
      if elevation < s1.altitudeMetersMin then { s1 with altitudeMetersMin := elevation } else s1
    let s3 : ElevationState :=
      if elevation > s2.altitudeMetersMax then { s2 with altitudeMetersMax := elevation } else s2
    { s3 with lastElevation := elevation }

/-- The body of the elevation pass for one data record. -/
def elevationStep (s : ElevationState) (record : Record) : ElevationState :=
  elevationUpdate s (elevationOf record)

/-- The elevation pass over `records`: header skipped. -/
def elevationPass (records : List Record) : ElevationState :=
  (records.drop 1).foldl elevationStep elevationInit

/-! ## Notions used to state the properties -/

/-- The exact sum of the parsed Distance fields of `rows`. -/
def distanceSum (rows : List Record) : Int := (rows.map distanceOf).sum

/-- The rows of `rows` that the classifier `label` maps to the key `k`. -/
def rowsWithLabel (label : List String → String) (k : String) (rows : List Record) :
    List Record :=
  rows.filter (fun r => decide (label (waytagsOf r) = k))

/-- The rows of `rows` that the paved/unpaved pass counts as paved. -/
def pavedRows (rows : List Record) : List Record :=
  rows.filter (fun r => isPaved (waytagsOf r) (getHighwayIdentifier (waytagsOf r)))

/-- The rows of `rows` that the paved/unpaved pass counts as unpaved. -/
def unpavedRows (rows : List Record) : List Record :=
  rows.filter (fun r => !isPaved (waytagsOf r) (getHighwayIdentifier (waytagsOf r)))

/-- The elevation `e` is not below the deepest point on land. -/
def isValidElevation (e : Int) : Bool := decide (¬ e < deepestPointOnLand)

/-- The rows of `rows` whose parsed elevation is not below the deepest point on land. -/
def validRows (rows : List Record) : List Record :=
  rows.filter (fun r => isValidElevation (elevationOf r))

/-- The parsed elevations of the valid rows, in row order. -/
def validElevations (rows : List Record) : List Int := (validRows rows).map elevationOf

/-- The exact sum of `max (v (i+1) - v i) 0` over the consecutive pairs of `vs`. -/
def ascentOf : List Int → Int
  | a :: b :: rest => max (b - a) 0 + ascentOf (b :: rest)
  | _ => 0

/-- The exact sum of `min (v (i+1) - v i) 0` over the consecutive pairs of `vs`. -/
def descentOf : List Int → Int
  | a :: b :: rest => min (b - a) 0 + descentOf (b :: rest)
  | _ => 0

/-- Every subtraction and addition that the elevation pass performs on the elevations
`es`, started in state `s`, gives its exact result: none of them overflows. -/
def elevationExact : ElevationState → List Int → Bool
  | _, [] => true
  | s, e :: es =>
    (if e < deepestPointOnLand then true
     else if s.lastElevation = maxInt then true
     else
       decide (subInt e s.lastElevation = e - s.lastElevation) &&
       (if e > s.lastElevation then
          decide (addInt s.metersUphill (subInt e s.lastElevation)
            = s.metersUphill + (e - s.lastElevation))
        else
          decide (addInt s.metersDownhill (subInt e s.lastElevation)
            = s.metersDownhill + (e - s.lastElevation))))
    && elevationExact (elevationUpdate s e) es

/-- The quotient `float64(value) / float64(distanceTotal) * 100.0` of the report, taken as
an exact rational number. -/
def percent (value distanceTotal : Int) : ℚ := (value : ℚ) / (distanceTotal : ℚ) * 100

/-- The token list `ts` without its empty-string tokens. -/
def dropEmpty : List String → List String
  | [] => []
  | t :: ts => if t = "" then dropEmpty ts else t :: dropEmpty ts

/-! ## Strings: basic facts -/

theorem hasPrefix_append (p v : String) : hasPrefix (p ++ v) p = true := by
  simp [hasPrefix, List.isPrefixOf_iff_prefix]

theorem cutPrefix_append (p v : String) : cutPrefix (p ++ v) p = v := by
  simp [cutPrefix, hasPrefix_append]

theorem eq_append_of_hasPrefix {s p : String} (h : hasPrefix s p = true) :
    s = p ++ cutPrefix s p := by
  have hp : p.data <+: s.data := by
    simpa [hasPrefix, List.isPrefixOf_iff_prefix] using h
  obtain ⟨r, hr⟩ := hp
  apply String.ext
  simp [cutPrefix, h, ← hr]

theorem hasPrefix_iff (s p : String) : hasPrefix s p = true ↔ ∃ v, s = p ++ v := by
  constructor
  · intro h
    exact ⟨_, eq_append_of_hasPrefix h⟩
  · rintro ⟨v, rfl⟩
    exact hasPrefix_append p v

/-! ## The highway identifier -/

theorem findTracktype_none (hi : String) (ts : List String)
    (h : ∀ u ∈ ts, hasPrefix u "tracktype=" = false) : findTracktype hi ts = hi := by
  induction ts with
  | nil => rfl
  | cons u rest ih =>
    have hu := h u (List.mem_cons_self _ _)
    simp only [findTracktype, hu]
    exact ih (fun x hx => h x (List.mem_cons_of_mem _ hx))

theorem findTracktype_first (hi v : String) (a b : List String)
    (h : ∀ u ∈ a, hasPrefix u "tracktype=" = false) :
    findTracktype hi (a ++ ("tracktype=" ++ v) :: b) = hi ++ " (" ++ v ++ ")" := by
  induction a with
  | nil => simp [findTracktype, hasPrefix_append, cutPrefix_append]
  | cons u rest ih =>
    have hu := h u (List.mem_cons_self _ _)
    simp only [List.cons_append, findTracktype, hu]
    exact ih (fun x hx => h x (List.mem_cons_of_mem _ hx))

theorem getHighwayIdentifierLoop_none (W rest : List String) (hi : String)
    (h : ∀ t ∈ rest, hasPrefix t "highway" = false) :
    getHighwayIdentifierLoop W rest hi = hi := by
  induction rest generalizing hi with
  | nil => rfl
  | cons t rest ih =>
    have ht := h t (List.mem_cons_self _ _)
    simp only [getHighwayIdentifierLoop, ht]
    exact ih hi (fun x hx => h x (List.mem_cons_of_mem _ hx))

theorem getHighwayIdentifierLoop_last (W pre post : List String) (t hi : String)
    (ht : hasPrefix t "highway" = true)
    (hpost : ∀ u ∈ post, hasPrefix u "highway" = false) :
    getHighwayIdentifierLoop W (pre ++ t :: post) hi =
      if t = "highway=track" then findTracktype t W else t := by
  induction pre generalizing hi with
  | nil =>
    simp only [List.nil_append, getHighwayIdentifierLoop, ht, if_true,
      getHighwayIdentifierLoop_none W post _ hpost]
  | cons x pre ih =>
    simp only [List.cons_append, getHighwayIdentifierLoop]
    split
    · split <;> exact ih _
    · exact ih _

/-- C1: `getHighwayIdentifier ts` is empty when no token starts with `highway`; otherwise,
with `t` the last token starting with `highway`, it is `highway=track (v)` when `t` is
exactly `highway=track` and `tracktype=v` is the first token starting with `tracktype=`,
and it is `t` verbatim in every other case. -/
theorem getHighwayIdentifier_spec (ts : List String) :
    ((∀ t ∈ ts, hasPrefix t "highway" = false) → getHighwayIdentifier ts = "") ∧
    (∀ pre t post, ts = pre ++ t :: post → hasPrefix t "highway" = true →
      (∀ u ∈ post, hasPrefix u "highway" = false) →
      (t = "highway=track" → ∀ a v b, ts = a ++ ("tracktype=" ++ v) :: b →
        (∀ x ∈ a, hasPrefix x "tracktype=" = false) →
        getHighwayIdentifier ts = "highway=track (" ++ v ++ ")") ∧
      (t = "highway=track" → (∀ u ∈ ts, hasPrefix u "tracktype=" = false) →
        getHighwayIdentifier ts = t) ∧
      (t ≠ "highway=track" → getHighwayIdentifier ts = t)) ∧
    getHighwayIdentifier ["highway=path", "highway=track", "tracktype=grade3"]
      = "highway=track (grade3)" := by
  refine ⟨fun h => getHighwayIdentifierLoop_none ts ts "" h, ?_, by decide⟩
  intro pre t post hts ht hpost
  have key : getHighwayIdentifier ts
      = if t = "highway=track" then findTracktype t ts else t := by
    unfold getHighwayIdentifier
    conv_lhs => arg 2; rw [hts]
    exact getHighwayIdentifierLoop_last ts pre post t "" ht hpost
  refine ⟨?_, ?_, ?_⟩
  · intro htrack a v b hab ha
    rw [key, if_pos htrack, htrack]
    conv_lhs => arg 2; rw [hab]
    rw [findTracktype_first _ v a b ha]
    rfl
  · intro htrack hnone
    rw [key, if_pos htrack]
    exact findTracktype_none t ts hnone
  · intro hne
    rw [key, if_neg hne]

/-- C1, at the tokens of the specification: the hypotheses hold there. -/
theorem getHighwayIdentifier_spec_witness :
    getHighwayIdentifier ["highway=path", "highway=track", "tracktype=grade3"]
      = "highway=track (" ++ "grade3" ++ ")" :=
  ((getHighwayIdentifier_spec ["highway=path", "highway=track", "tracktype=grade3"]).2.1
    ["highway=path"] "highway=track" ["tracktype=grade3"] rfl (by decide) (by decide)).1 rfl
    ["highway=path", "highway=track"] "grade3" [] (by decide) (by decide)

/-! ## Paved or unpaved -/

theorem unpaved_not_paved : ∀ v ∈ unpavedSurfaces, v ∉ pavedSurfaces := by decide

theorem isPaved_unresolved (ts : List String) (h : String)
    (hts : ∀ x ∈ ts, ∀ w, x = "surface=" ++ w → w ∉ pavedSurfaces ∧ w ∉ unpavedSurfaces) :
    isPaved ts h = if h ∈ unpavedHighways then false else true := by
  induction ts with
  | nil => rfl
  | cons x rest ih =>
    have ih1 := ih (fun y hy => hts y (List.mem_cons_of_mem _ hy))
    unfold isPaved
    by_cases hx : hasPrefix x "surface=" = true
    · have hw := hts x (List.mem_cons_self _ _) _ (eq_append_of_hasPrefix hx)
      simp only [hx, if_true, hw.1, hw.2, if_false]
      exact ih1
    · simp only [hx]
      exact ih1

theorem isPaved_first (pre post : List String) (v h : String)
    (hv : v ∈ pavedSurfaces ∨ v ∈ unpavedSurfaces)
    (hpre : ∀ x ∈ pre, ∀ w, x = "surface=" ++ w → w ∉ pavedSurfaces ∧ w ∉ unpavedSurfaces) :
    isPaved (pre ++ ("surface=" ++ v) :: post) h = decide (v ∈ pavedSurfaces) := by
  induction pre with
  | nil =>
    simp only [List.nil_append]
    unfold isPaved
    simp only [hasPrefix_append, cutPrefix_append, if_true]
    by_cases hp : v ∈ pavedSurfaces
    · simp [hp]
    · have hu : v ∈ unpavedSurfaces := hv.resolve_left hp
      simp [hp, hu]
  | cons x rest ih =>
    have ih1 := ih (fun y hy => hpre y (List.mem_cons_of_mem _ hy))
    simp only [List.cons_append]
    unfold isPaved
    by_cases hx : hasPrefix x "surface=" = true
    · have hw := hpre x (List.mem_cons_self _ _) _ (eq_append_of_hasPrefix hx)
      simp only [hx, if_true, hw.1, hw.2, if_false]
      exact ih1
    · simp only [hx]
      exact ih1

/-- C2: `isPaved ts h` is decided by the first token `surface=v` of `ts` whose value `v` is
in the paved or the unpaved set (true for the paved set, false for the unpaved set); when
no token resolves this way it is false exactly for the ten listed highway identifiers. -/
theorem isPaved_spec (ts : List String) (h : String) :
    (∀ pre v post, ts = pre ++ ("surface=" ++ v) :: post →
      (v ∈ pavedSurfaces ∨ v ∈ unpavedSurfaces) →
      (∀ x ∈ pre, ∀ w, x = "surface=" ++ w → w ∉ pavedSurfaces ∧ w ∉ unpavedSurfaces) →
      (v ∈ pavedSurfaces → isPaved ts h = true) ∧
      (v ∈ unpavedSurfaces → isPaved ts h = false)) ∧
    ((∀ x ∈ ts, ∀ w, x = "surface=" ++ w → w ∉ pavedSurfaces ∧ w ∉ unpavedSurfaces) →
      (isPaved ts h = false ↔
        h ∈ ["highway=track", "highway=track (grade2)", "highway=track (grade3)",
             "highway=track (grade4)", "highway=track (grade5)",
             "highway=service (grade2)", "highway=service (grade3)",
             "highway=service (grade4)", "highway=service (grade5)", "highway=path"]) ∧
      (isPaved ts h = true ↔
        h ∉ ["highway=track", "highway=track (grade2)", "highway=track (grade3)",
             "highway=track (grade4)", "highway=track (grade5)",
             "highway=service (grade2)", "highway=service (grade3)",
             "highway=service (grade4)", "highway=service (grade5)", "highway=path"])) ∧
    isPaved ["surface=gravel"] h = false ∧
    isPaved [] "highway=path" = false ∧
    isPaved [] "" = true := by
  refine ⟨?_, ?_, ?_, by decide, by decide⟩
  · intro pre v post hts hv hpre
    rw [hts, isPaved_first pre post v h hv hpre]
    refine ⟨fun hp => by simp [hp], fun hu => ?_⟩
    have := unpaved_not_paved v hu
    simp [this]
  · intro hts
    rw [isPaved_unresolved ts h hts]
    have hl : unpavedHighways =
        ["highway=track", "highway=track (grade2)", "highway=track (grade3)",
         "highway=track (grade4)", "highway=track (grade5)",
         "highway=service (grade2)", "highway=service (grade3)",
         "highway=service (grade4)", "highway=service (grade5)", "highway=path"] := rfl
    rw [← hl]
    by_cases hh : h ∈ unpavedHighways <;> simp [hh]
  · exact ((isPaved_first [] [] "gravel" h (Or.inr (by decide))
      (fun x hx => absurd hx (List.not_mem_nil x))).trans (by decide))

/-- C2, at tokens where a token with an unlisted value comes before the deciding one. -/
theorem isPaved_spec_witness :
    isPaved ["surface=unknown", "surface=" ++ "gravel", "surface=asphalt"] "highway=primary"
      = false :=
  ((isPaved_spec ["surface=unknown", "surface=" ++ "gravel", "surface=asphalt"]
      "highway=primary").1
    ["surface=unknown"] "gravel" ["surface=asphalt"] rfl (Or.inr (by decide))
    (by
      intro x hx w hw
      have hx1 : x = "surface=unknown" := by simpa using hx
      have hw1 : w = "unknown" := by
        have := congrArg (fun s => cutPrefix s "surface=") (hx1.symm.trans hw)
        simpa [cutPrefix_append] using this.symm
      subst hw1
      exact ⟨by decide, by decide⟩)).2 (by decide)

/-! ## Labels taken from the last matching token -/

theorem ne_empty_of_hasPrefix {t p : String} (h : hasPrefix t p = true) (hp : p ≠ "") :
    t ≠ "" := by
  intro ht
  apply hp
  have h1 := eq_append_of_hasPrefix h
  rw [ht] at h1
  have h2 := congrArg String.data h1
  simp only [String.data_append] at h2
  apply String.ext
  have h3 : p.data ++ (cutPrefix "" p).data = [] := h2.symm
  exact (List.append_eq_nil.mp h3).1

theorem lastWithPrefix_none (p : String) (ts : List String) (label : String)
    (h : ∀ t ∈ ts, hasPrefix t p = false) : lastWithPrefix p ts label = label := by
  induction ts generalizing label with
  | nil => rfl
  | cons t rest ih =>
    have ht := h t (List.mem_cons_self _ _)
    simp only [lastWithPrefix, ht]
    exact ih label (fun x hx => h x (List.mem_cons_of_mem _ hx))

theorem lastWithPrefix_last (p : String) (pre post : List String) (t label : String)
    (ht : hasPrefix t p = true) (hpost : ∀ u ∈ post, hasPrefix u p = false) :
    lastWithPrefix p (pre ++ t :: post) label = t := by
  induction pre generalizing label with
  | nil =>
    simp only [List.nil_append, lastWithPrefix, ht, if_true]
    exact lastWithPrefix_none p post t hpost
  | cons x pre ih =>
    simp only [List.cons_append, lastWithPrefix]
    split <;> exact ih _

theorem lastWithPrefix_cases (p : String) (ts : List String) (label : String) :
    (lastWithPrefix p ts label = label ∧ ∀ t ∈ ts, hasPrefix t p = false) ∨
      hasPrefix (lastWithPrefix p ts label) p = true := by
  induction ts generalizing label with
  | nil => exact Or.inl ⟨rfl, fun t ht => absurd ht (List.not_mem_nil t)⟩
  | cons t rest ih =>
    unfold lastWithPrefix
    by_cases ht : hasPrefix t p = true
    · simp only [ht, if_true]
      rcases ih t with ⟨h1, _⟩ | h2
      · exact Or.inr (by rw [h1]; exact ht)
      · exact Or.inr h2
    · simp only [ht]
      rcases ih label with ⟨h1, h2⟩ | h2
      · refine Or.inl ⟨h1, fun x hx => ?_⟩
        rcases List.mem_cons.mp hx with rfl | hx
        · simpa using ht
        · exact h2 x hx
      · exact Or.inr h2

/-- C6: the surface label is the last token starting with `surface`, verbatim; without
such a token it is `default=paved` when `isPaved ts (getHighwayIdentifier ts)` holds and
`default=unpaved` otherwise. -/
theorem surfaceLabel_spec (ts : List String) :
    (∀ pre t post, ts = pre ++ t :: post → hasPrefix t "surface" = true →
      (∀ u ∈ post, hasPrefix u "surface" = false) → surfaceLabel ts = t) ∧
    ((∀ t ∈ ts, hasPrefix t "surface" = false) →
      (isPaved ts (getHighwayIdentifier ts) = true → surfaceLabel ts = "default=paved") ∧
      (isPaved ts (getHighwayIdentifier ts) = false → surfaceLabel ts = "default=unpaved")) := by
  constructor
  · intro pre t post hts ht hpost
    have h1 : lastWithPrefix "surface" ts "" = t := by
      rw [hts]; exact lastWithPrefix_last "surface" pre post t "" ht hpost
    have h2 : t ≠ "" := ne_empty_of_hasPrefix ht (by decide)
    simp only [surfaceLabel, h1, h2, if_false]
  · intro hnone
    have h1 : lastWithPrefix "surface" ts "" = "" := lastWithPrefix_none "surface" ts "" hnone
    constructor
    · intro hp
      simp only [surfaceLabel, h1, hp, if_true]
    · intro hp
      simp [surfaceLabel, h1, hp]

/-- C6, at a list whose last `surface` token is not a `surface=` token. -/
theorem surfaceLabel_spec_witness :
    surfaceLabel ["surface=asphalt", "highway=path", "surface:colour=red", "foot=yes"]
      = "surface:colour=red" :=
  (surfaceLabel_spec ["surface=asphalt", "highway=path", "surface:colour=red", "foot=yes"]).1
    ["surface=asphalt", "highway=path"] "surface:colour=red" ["foot=yes"] rfl
    (by decide) (by decide)

/-- C7: for `p` one of `smoothness`, `mtb:scale`, `sac_scale`, the label of the pass is
the last token starting with `p`, verbatim, and it is `default=unknown` if and only if no
token starts with `p`. -/
theorem scaleLabel_spec (ts : List String) (p : String) (label : List String → String)
    (hp : (p, label) ∈ [("smoothness", smoothnessLabel), ("mtb:scale", mtbScaleLabel),
      ("sac_scale", sacScaleLabel)]) :
    (∀ pre t post, ts = pre ++ t :: post → hasPrefix t p = true →
      (∀ u ∈ post, hasPrefix u p = false) → label ts = t) ∧
    (label ts = "default=unknown" ↔ ∀ t ∈ ts, hasPrefix t p = false) := by
  have hlabel : label ts = lastWithPrefix p ts "default=unknown" ∧
      hasPrefix "default=unknown" p = false := by
    simp only [List.mem_cons, Prod.mk.injEq, List.mem_singleton, List.not_mem_nil,
      or_false] at hp
    rcases hp with ⟨rfl, rfl⟩ | ⟨rfl, rfl⟩ | ⟨rfl, rfl⟩
    · exact ⟨rfl, by decide⟩
    · exact ⟨rfl, by decide⟩
    · exact ⟨rfl, by decide⟩
  obtain ⟨hl, hd⟩ := hlabel
  rw [hl]
  constructor
  · intro pre t post hts ht hpost
    rw [hts]
    exact lastWithPrefix_last p pre post t _ ht hpost
  · constructor
    · intro h
      rcases lastWithPrefix_cases p ts "default=unknown" with ⟨_, h2⟩ | h2
      · exact h2
      · rw [h, hd] at h2
        exact absurd h2 (by decide)
    · exact lastWithPrefix_none p ts _

/-- C7, at a list whose only `mtb:scale` token is `mtb:scale:uphill=2`. -/
theorem scaleLabel_spec_witness :
    mtbScaleLabel ["highway=path", "mtb:scale:uphill=2"] = "mtb:scale:uphill=2" :=
  (scaleLabel_spec ["highway=path", "mtb:scale:uphill=2"] "mtb:scale" mtbScaleLabel
    (by simp)).1 ["highway=path"] "mtb:scale:uphill=2" [] rfl (by decide) (by decide)

/-! ## Wrap-around arithmetic -/

theorem wrapInt_of_inIntRange {x : Int} (h : InIntRange x) : wrapInt x = x := by
  unfold InIntRange minInt maxInt at h
  unfold wrapInt
  omega

theorem wrapInt_idem (x : Int) : wrapInt (wrapInt x) = wrapInt x := by
  unfold wrapInt
  omega

theorem addInt_wrapInt (a b : Int) : addInt (wrapInt a) b = wrapInt (a + b) := by
  unfold addInt wrapInt
  omega

theorem wrapInt_add_wrapInt (a b : Int) : wrapInt (wrapInt a + wrapInt b) = wrapInt (a + b) := by
  unfold wrapInt
  omega

/-! ## Tables -/

theorem tableGet_tableSet_same (t : Table) (k : String) (v : Int) :
    tableGet (tableSet t k v) k = v := by
  induction t with
  | nil => simp [tableSet, tableGet]
  | cons e rest ih =>
    obtain ⟨k1, v1⟩ := e
    by_cases h : k1 = k
    · simp [tableSet, tableGet, h]
    · simp [tableSet, tableGet, h, ih]

theorem tableGet_tableSet_other (t : Table) (k k2 : String) (v : Int) (hk : k2 ≠ k) :
    tableGet (tableSet t k v) k2 = tableGet t k2 := by
  induction t with
  | nil =>
    have : ¬ k = k2 := fun h => hk h.symm
    simp [tableSet, tableGet, this]
  | cons e rest ih =>
    obtain ⟨k1, v1⟩ := e
    by_cases h : k1 = k
    · subst h
      have : ¬ k1 = k2 := fun h => hk h.symm
      simp [tableSet, tableGet, this]
    · by_cases h2 : k1 = k2
      · subst h2
        simp [tableSet, tableGet, hk]
      · simp [tableSet, tableGet, h, h2, ih]

theorem mem_tableKeys_tableSet (t : Table) (k x : String) (v : Int) :
    x ∈ tableKeys (tableSet t k v) ↔ x = k ∨ x ∈ tableKeys t := by
  induction t with
  | nil => simp [tableSet, tableKeys]
  | cons e rest ih =>
    obtain ⟨k1, v1⟩ := e
    by_cases h : k1 = k
    · subst h
      simp [tableSet, tableKeys]
    · have ih1 : x ∈ List.map Prod.fst (tableSet rest k v) ↔
          x = k ∨ x ∈ List.map Prod.fst rest := ih
      simp only [tableSet, tableKeys, h, if_false, List.map_cons, List.mem_cons, ih1]
      tauto

theorem nodup_tableKeys_tableSet (t : Table) (k : String) (v : Int)
    (h : (tableKeys t).Nodup) : (tableKeys (tableSet t k v)).Nodup := by
  induction t with
  | nil => simp [tableSet, tableKeys]
  | cons e rest ih =>
    obtain ⟨k1, v1⟩ := e
    have h1 : k1 ∉ tableKeys rest ∧ (tableKeys rest).Nodup := by
      simpa [tableKeys] using h
    by_cases hk : k1 = k
    · subst hk
      simpa [tableSet, tableKeys] using h
    · have h2 : k1 ∉ tableKeys (tableSet rest k v) := by
        rw [mem_tableKeys_tableSet]
        rintro (h3 | h3)
        · exact hk h3
        · exact h1.1 h3
      have h3 := ih h1.2
      simp only [tableSet, hk, if_false]
      exact List.nodup_cons.mpr ⟨h2, h3⟩

/-- The exact sum of the values stored in a table. -/
theorem valuesSum_tableSet (t : Table) (k : String) (v : Int) :
    ((tableSet t k v).map Prod.snd).sum = (t.map Prod.snd).sum - tableGet t k + v := by
  induction t with
  | nil => simp [tableSet, tableGet]
  | cons e rest ih =>
    obtain ⟨k1, v1⟩ := e
    by_cases h : k1 = k
    · simp [tableSet, tableGet, h]
      omega
    · simp [tableSet, tableGet, h, ih]
      omega

theorem map_tableGet_tableKeys (t : Table) (h : (tableKeys t).Nodup) :
    (tableKeys t).map (tableGet t) = t.map Prod.snd := by
  induction t with
  | nil => rfl
  | cons e rest ih =>
    obtain ⟨k1, v1⟩ := e
    have h1 : k1 ∉ tableKeys rest ∧ (tableKeys rest).Nodup := by
      simpa [tableKeys] using h
    have h2 : (tableKeys rest).map (tableGet ((k1, v1) :: rest))
        = (tableKeys rest).map (tableGet rest) := by
      apply List.map_congr_left
      intro x hx
      have : ¬ k1 = x := fun hh => h1.1 (hh ▸ hx)
      simp [tableGet, this]
    have h3 : tableKeys ((k1, v1) :: rest) = k1 :: tableKeys rest := rfl
    rw [h3, List.map_cons, h2, ih h1.2]
    simp [tableGet]

theorem foldl_addInt (f : String → Int) (keys : List String) (a : Int) :
    keys.foldl (fun total key => addInt total (f key)) (wrapInt a)
      = wrapInt (a + (keys.map f).sum) := by
  induction keys generalizing a with
  | nil => simp
  | cons k rest ih =>
    simp only [List.foldl_cons, List.map_cons, List.sum_cons]
    rw [addInt_wrapInt, ih]
    congr 1
    omega

theorem tableTotal_eq (t : Table) (h : (tableKeys t).Nodup) :
    tableTotal t = wrapInt ((t.map Prod.snd).sum) := by
  unfold tableTotal
  have h0 : (0 : Int) = wrapInt 0 := by decide
  rw [h0, foldl_addInt, map_tableGet_tableKeys t h]
  simp

/-! ## The frequency passes -/

theorem tablePass_snoc (label : List String → String) (header r : Record)
    (rows : List Record) :
    tablePass label (header :: (rows ++ [r]))
      = tableStep label (tablePass label (header :: rows)) r := by
  simp [tablePass, List.foldl_append]

theorem tablePass_keys (label : List String → String) (header : Record)
    (rows : List Record) (k : String) :
    k ∈ tableKeys (tablePass label (header :: rows)) ↔
      ∃ r ∈ rows, label (waytagsOf r) = k := by
  induction rows using List.reverseRecOn with
  | nil => simp [tablePass, tableKeys]
  | append_singleton rows r ih =>
    rw [tablePass_snoc]
    simp only [tableStep, mem_tableKeys_tableSet, ih, List.mem_append, List.mem_singleton]
    constructor
    · rintro (h | ⟨x, hx, hk⟩)
      · exact ⟨r, Or.inr rfl, h.symm⟩
      · exact ⟨x, Or.inl hx, hk⟩
    · rintro ⟨x, hx | hx, hk⟩
      · exact Or.inr ⟨x, hx, hk⟩
      · subst hx
        exact Or.inl hk.symm

theorem tablePass_nodup (label : List String → String) (header : Record)
    (rows : List Record) : (tableKeys (tablePass label (header :: rows))).Nodup := by
  induction rows using List.reverseRecOn with
  | nil => simp [tablePass, tableKeys]
  | append_singleton rows r ih =>
    rw [tablePass_snoc]
    exact nodup_tableKeys_tableSet _ _ _ ih

theorem tablePass_get (label : List String → String) (header : Record)
    (rows : List Record) (k : String) :
    tableGet (tablePass label (header :: rows)) k
      = wrapInt (distanceSum (rowsWithLabel label k rows)) := by
  induction rows using List.reverseRecOn with
  | nil => simp [tablePass, tableGet, distanceSum, rowsWithLabel]; decide
  | append_singleton rows r ih =>
    rw [tablePass_snoc]
    by_cases hk : label (waytagsOf r) = k
    · have h1 : rowsWithLabel label k (rows ++ [r]) = rowsWithLabel label k rows ++ [r] := by
        simp [rowsWithLabel, List.filter_append, hk]
      rw [h1]
      simp only [tableStep, hk, tableGet_tableSet_same, ih, addInt_wrapInt]
      simp [distanceSum]
    · have h1 : rowsWithLabel label k (rows ++ [r]) = rowsWithLabel label k rows := by
        simp [rowsWithLabel, List.filter_append, hk]
      rw [h1]
      simp only [tableStep]
      rw [tableGet_tableSet_other _ _ _ _ (fun h => hk h.symm), ih]

theorem tablePass_valuesSum (label : List String → String) (header : Record)
    (rows : List Record) :
    wrapInt (((tablePass label (header :: rows)).map Prod.snd).sum)
      = wrapInt (distanceSum rows) := by
  induction rows using List.reverseRecOn with
  | nil => simp [tablePass, distanceSum]
  | append_singleton rows r ih =>
    rw [tablePass_snoc]
    simp only [tableStep, valuesSum_tableSet, distanceSum, List.map_append, List.sum_append,
      List.map_cons, List.map_nil, List.sum_cons, List.sum_nil, add_zero]
    simp only [distanceSum] at ih
    unfold addInt
    unfold wrapInt at *
    omega

theorem tablePass_total (label : List String → String) (header : Record)
    (rows : List Record) :
    tableTotal (tablePass label (header :: rows)) = wrapInt (distanceSum rows) := by
  rw [tableTotal_eq _ (tablePass_nodup label header rows), tablePass_valuesSum]

/-- C3: for each of the five frequency tables, after its pass a label is a key exactly
when some non-header row classifies to it, and the value stored under a key is the sum of
the parsed Distance fields of the non-header rows that classify to it: the exact sum
whenever it is an `int` (exact integer arithmetic), its wrap-around in general.  The header
row contributes to no key, and header-only input leaves the table empty. -/
theorem frequencyTables_spec (pass : List Record → Table) (label : List String → String)
    (hp : (pass, label) ∈ [(highwaysPass, getHighwayIdentifier), (surfacesPass, surfaceLabel),
      (smoothnessPass, smoothnessLabel), (mtbScalesPass, mtbScaleLabel),
      (sacScalesPass, sacScaleLabel)])
    (header : Record) (rows : List Record) :
    (∀ k, k ∈ tableKeys (pass (header :: rows)) ↔ ∃ r ∈ rows, label (waytagsOf r) = k) ∧
    (∀ k, InIntRange (distanceSum (rowsWithLabel label k rows)) →
      tableGet (pass (header :: rows)) k = distanceSum (rowsWithLabel label k rows)) ∧
    (∀ k, tableGet (pass (header :: rows)) k
      = wrapInt (distanceSum (rowsWithLabel label k rows))) ∧
    (tableKeys (pass (header :: rows))).Nodup ∧
    (∀ header2, pass (header2 :: rows) = pass (header :: rows)) ∧
    pass [header] = [] := by
  have hpass : pass = tablePass label := by
    simp only [List.mem_cons, Prod.mk.injEq, List.mem_singleton, List.not_mem_nil,
      or_false] at hp
    rcases hp with ⟨rfl, rfl⟩ | ⟨rfl, rfl⟩ | ⟨rfl, rfl⟩ | ⟨rfl, rfl⟩ | ⟨rfl, rfl⟩ <;> rfl
  subst hpass
  refine ⟨tablePass_keys label header rows, ?_, tablePass_get label header rows,
    tablePass_nodup label header rows, fun _ => rfl, rfl⟩
  intro k hk
  rw [tablePass_get, wrapInt_of_inIntRange hk]

/-- C3, at the two data rows of the specification and the key `highway=residential`. -/
theorem frequencyTables_spec_witness :
    tableGet (highwaysPass [headerRecord,
        mkRecord "" "100" "highway=track tracktype=grade2 surface=gravel",
        mkRecord "" "300" "highway=residential surface=asphalt"]) "highway=residential"
      = 300 :=
  ((frequencyTables_spec highwaysPass getHighwayIdentifier (by simp) headerRecord
      [mkRecord "" "100" "highway=track tracktype=grade2 surface=gravel",
       mkRecord "" "300" "highway=residential surface=asphalt"]).2.1
    "highway=residential" (by decide)).trans (by decide)

/-! ## The paved/unpaved pass and the totals -/

theorem pavedPass_snoc (header r : Record) (rows : List Record) :
    pavedPass (header :: (rows ++ [r])) = pavedStep (pavedPass (header :: rows)) r := by
  simp [pavedPass, List.foldl_append]

theorem pavedPass_eq (header : Record) (rows : List Record) :
    (pavedPass (header :: rows)).highwaysPaved = wrapInt (distanceSum (pavedRows rows)) ∧
    (pavedPass (header :: rows)).highwaysUnpaved = wrapInt (distanceSum (unpavedRows rows)) := by
  induction rows using List.reverseRecOn with
  | nil => simp [pavedPass, distanceSum, pavedRows, unpavedRows]; decide
  | append_singleton rows r ih =>
    rw [pavedPass_snoc]
    obtain ⟨ih1, ih2⟩ := ih
    by_cases hr : isPaved (waytagsOf r) (getHighwayIdentifier (waytagsOf r)) = true
    · have h1 : pavedRows (rows ++ [r]) = pavedRows rows ++ [r] := by
        simp [pavedRows, List.filter_append, hr]
      have h2 : unpavedRows (rows ++ [r]) = unpavedRows rows := by
        simp [unpavedRows, List.filter_append, hr]
      rw [h1, h2]
      simp only [pavedStep, hr, if_true, ih1, ih2, addInt_wrapInt]
      simp [distanceSum]
    · have hr2 : isPaved (waytagsOf r) (getHighwayIdentifier (waytagsOf r)) = false := by
        simpa using hr
      have h1 : pavedRows (rows ++ [r]) = pavedRows rows := by
        simp [pavedRows, List.filter_append, hr2]
      have h2 : unpavedRows (rows ++ [r]) = unpavedRows rows ++ [r] := by
        simp [unpavedRows, List.filter_append, hr2]
      rw [h1, h2]
      simp only [pavedStep, hr2, ih1, ih2, addInt_wrapInt]
      simp [distanceSum]

theorem distanceSum_paved_add_unpaved (rows : List Record) :
    distanceSum (pavedRows rows) + distanceSum (unpavedRows rows) = distanceSum rows := by
  induction rows with
  | nil => rfl
  | cons r rest ih =>
    simp only [distanceSum, pavedRows, unpavedRows] at ih
    by_cases hr : isPaved (waytagsOf r) (getHighwayIdentifier (waytagsOf r)) = true
    · simp only [distanceSum, pavedRows, unpavedRows, List.filter_cons, hr, if_true,
        Bool.not_true, Bool.false_eq_true, if_false, List.map_cons, List.sum_cons]
      omega
    · have hr2 : isPaved (waytagsOf r) (getHighwayIdentifier (waytagsOf r)) = false := by
        simpa using hr
      simp only [distanceSum, pavedRows, unpavedRows, List.filter_cons, hr2,
        Bool.not_false, Bool.false_eq_true, if_false, if_true, List.map_cons, List.sum_cons]
      omega

theorem pavedTotal_eq (header : Record) (rows : List Record) :
    pavedTotal (pavedPass (header :: rows)) = wrapInt (distanceSum rows) := by
  obtain ⟨h1, h2⟩ := pavedPass_eq header rows
  unfold pavedTotal addInt
  rw [h1, h2, wrapInt_add_wrapInt, add_comm, distanceSum_paved_add_unpaved]

/-- C8: the totals of the five frequency tables and `highwaysUnpaved + highwaysPaved` all
equal the sum of the parsed Distance fields of the non-header rows, `highwaysPaved` is the
sum over the rows with `isPaved` true and `highwaysUnpaved` the sum over the other rows:
the exact sums whenever these are `int` values (exact integer arithmetic), their
wrap-around in general. -/
theorem totals_spec (header : Record) (rows : List Record) :
    (InIntRange (distanceSum rows) →
      tableTotal (highwaysPass (header :: rows)) = distanceSum rows ∧
      tableTotal (surfacesPass (header :: rows)) = distanceSum rows ∧
      tableTotal (smoothnessPass (header :: rows)) = distanceSum rows ∧
      tableTotal (mtbScalesPass (header :: rows)) = distanceSum rows ∧
      tableTotal (sacScalesPass (header :: rows)) = distanceSum rows ∧
      pavedTotal (pavedPass (header :: rows)) = distanceSum rows) ∧
    (InIntRange (distanceSum (pavedRows rows)) →
      (pavedPass (header :: rows)).highwaysPaved = distanceSum (pavedRows rows)) ∧
    (InIntRange (distanceSum (unpavedRows rows)) →
      (pavedPass (header :: rows)).highwaysUnpaved = distanceSum (unpavedRows rows)) ∧
    (tableTotal (highwaysPass (header :: rows)) = wrapInt (distanceSum rows) ∧
      tableTotal (surfacesPass (header :: rows)) = wrapInt (distanceSum rows) ∧
      tableTotal (smoothnessPass (header :: rows)) = wrapInt (distanceSum rows) ∧
      tableTotal (mtbScalesPass (header :: rows)) = wrapInt (distanceSum rows) ∧
      tableTotal (sacScalesPass (header :: rows)) = wrapInt (distanceSum rows) ∧
      pavedTotal (pavedPass (header :: rows)) = wrapInt (distanceSum rows) ∧
      (pavedPass (header :: rows)).highwaysPaved = wrapInt (distanceSum (pavedRows rows)) ∧
      (pavedPass (header :: rows)).highwaysUnpaved
        = wrapInt (distanceSum (unpavedRows rows))) ∧
    distanceSum (pavedRows rows) + distanceSum (unpavedRows rows) = distanceSum rows := by
  have hw : tableTotal (highwaysPass (header :: rows)) = wrapInt (distanceSum rows) ∧
      tableTotal (surfacesPass (header :: rows)) = wrapInt (distanceSum rows) ∧
      tableTotal (smoothnessPass (header :: rows)) = wrapInt (distanceSum rows) ∧
      tableTotal (mtbScalesPass (header :: rows)) = wrapInt (distanceSum rows) ∧
      tableTotal (sacScalesPass (header :: rows)) = wrapInt (distanceSum rows) ∧
      pavedTotal (pavedPass (header :: rows)) = wrapInt (distanceSum rows) ∧
      (pavedPass (header :: rows)).highwaysPaved = wrapInt (distanceSum (pavedRows rows)) ∧
      (pavedPass (header :: rows)).highwaysUnpaved
        = wrapInt (distanceSum (unpavedRows rows)) :=
    ⟨tablePass_total _ header rows, tablePass_total _ header rows,
      tablePass_total _ header rows, tablePass_total _ header rows,
      tablePass_total _ header rows, pavedTotal_eq header rows,
      (pavedPass_eq header rows).1, (pavedPass_eq header rows).2⟩
  obtain ⟨h1, h2, h3, h4, h5, h6, h7, h8⟩ := hw
  refine ⟨fun hr => ?_, fun hr => ?_, fun hr => ?_, ⟨h1, h2, h3, h4, h5, h6, h7, h8⟩,
    distanceSum_paved_add_unpaved rows⟩
  · have e := wrapInt_of_inIntRange hr
    exact ⟨h1.trans e, h2.trans e, h3.trans e, h4.trans e, h5.trans e, h6.trans e⟩
  · exact h7.trans (wrapInt_of_inIntRange hr)
  · exact h8.trans (wrapInt_of_inIntRange hr)

/-- C8, at the two data rows of the specification: the surface table totals 400. -/
theorem totals_spec_witness :
    tableTotal (surfacesPass [headerRecord,
        mkRecord "" "100" "highway=track tracktype=grade2 surface=gravel",
        mkRecord "" "300" "highway=residential surface=asphalt"]) = 400 :=
  ((totals_spec headerRecord
      [mkRecord "" "100" "highway=track tracktype=grade2 surface=gravel",
       mkRecord "" "300" "highway=residential surface=asphalt"]).1 (by decide)).2.1.trans
    (by decide)

/-- C9: for a header row followed by a row with way-tags
`highway=track tracktype=grade2 surface=gravel` and distance `100` and a row with way-tags
`highway=residential surface=asphalt` and distance `300`, the highway table is exactly
`highway=track (grade2)` at 100 and `highway=residential` at 300, and the paved/unpaved
pass ends with `highwaysUnpaved = 100` and `highwaysPaved = 300`. -/
theorem example_rows_spec (header r1 r2 : Record)
    (h1 : r1.wayTags = "highway=track tracktype=grade2 surface=gravel")
    (d1 : r1.distance = "100")
    (h2 : r2.wayTags = "highway=residential surface=asphalt")
    (d2 : r2.distance = "300") :
    highwaysPass [header, r1, r2]
      = [("highway=track (grade2)", 100), ("highway=residential", 300)] ∧
    (∀ k, tableGet (highwaysPass [header, r1, r2]) k =
      if k = "highway=track (grade2)" then 100
      else if k = "highway=residential" then 300 else 0) ∧
    (∀ k, k ∈ tableKeys (highwaysPass [header, r1, r2]) ↔
      k = "highway=track (grade2)" ∨ k = "highway=residential") ∧
    (pavedPass [header, r1, r2]).highwaysUnpaved = 100 ∧
    (pavedPass [header, r1, r2]).highwaysPaved = 300 := by
  have e1 : waytagsOf r1 = ["highway=track", "tracktype=grade2", "surface=gravel"] := by
    rw [waytagsOf, h1]; decide
  have e2 : waytagsOf r2 = ["highway=residential", "surface=asphalt"] := by
    rw [waytagsOf, h2]; decide
  have e3 : distanceOf r1 = 100 := by rw [distanceOf, d1]; decide
  have e4 : distanceOf r2 = 300 := by rw [distanceOf, d2]; decide
  have ht : highwaysPass [header, r1, r2]
      = [("highway=track (grade2)", 100), ("highway=residential", 300)] := by
    simp only [highwaysPass, tablePass, List.drop, List.foldl, tableStep, e1, e2, e3, e4]
    decide
  have hq : pavedPass [header, r1, r2] = { highwaysPaved := 300, highwaysUnpaved := 100 } := by
    simp only [pavedPass, List.drop, List.foldl, pavedStep, e1, e2, e3, e4]
    decide
  refine ⟨ht, ?_, ?_, ?_, ?_⟩
  · intro k
    rw [ht]
    simp only [tableGet]
    by_cases ha : "highway=track (grade2)" = k
    · subst ha; simp
    · have ha2 : ¬ k = "highway=track (grade2)" := fun h => ha h.symm
      by_cases hb : "highway=residential" = k
      · subst hb; simp
      · have hb2 : ¬ k = "highway=residential" := fun h => hb h.symm
        simp [ha, ha2, hb, hb2]
  · intro k
    rw [ht]
    simp [tableKeys]
  · rw [hq]
  · rw [hq]

/-- C9, at records that carry the two rows of the specification. -/
theorem example_rows_spec_witness :
    (pavedPass [headerRecord,
        mkRecord "81" "100" "highway=track tracktype=grade2 surface=gravel",
        mkRecord "82" "300" "highway=residential surface=asphalt"]).highwaysUnpaved = 100 :=
  (example_rows_spec headerRecord
    (mkRecord "81" "100" "highway=track tracktype=grade2 surface=gravel")
    (mkRecord "82" "300" "highway=residential surface=asphalt") rfl rfl rfl rfl).2.2.2.1

/-! ## The elevation pass -/

theorem elevationPass_eq_foldl (header : Record) (rows : List Record) :
    elevationPass (header :: rows)
      = (rows.map elevationOf).foldl elevationUpdate elevationInit := by
  simp only [elevationPass, List.drop, List.foldl_map]
  rfl

theorem validElevations_eq (rows : List Record) :
    validElevations rows = (rows.map elevationOf).filter isValidElevation := by
  simp only [validElevations, validRows, List.filter_map]
  rfl

theorem isValidElevation_false {e : Int} (h : e < deepestPointOnLand) :
    isValidElevation e = false := by
  simp [isValidElevation, h]

theorem isValidElevation_true {e : Int} (h : ¬ e < deepestPointOnLand) :
    isValidElevation e = true := by
  simp only [isValidElevation, h, not_false_eq_true, decide_True]

theorem elevationUpdate_invalid (s : ElevationState) (e : Int)
    (h : e < deepestPointOnLand) : elevationUpdate s e = s := by
  simp [elevationUpdate, h]

theorem elevationUpdate_first (s : ElevationState) (e : Int)
    (h : ¬ e < deepestPointOnLand) (hs : s.lastElevation = maxInt) :
    elevationUpdate s e =
      { s with lastElevation := e, altitudeMetersMin := e, altitudeMetersMax := e } := by
  simp [elevationUpdate, h, hs]

theorem elevationUpdate_next (s : ElevationState) (e : Int)
    (h : ¬ e < deepestPointOnLand) (hs : s.lastElevation ≠ maxInt) :
    (elevationUpdate s e).lastElevation = e ∧
    (elevationUpdate s e).metersUphill =
      (if e > s.lastElevation then addInt s.metersUphill (subInt e s.lastElevation)
       else s.metersUphill) ∧
    (elevationUpdate s e).metersDownhill =
      (if e > s.lastElevation then s.metersDownhill
       else addInt s.metersDownhill (subInt e s.lastElevation)) ∧
    (elevationUpdate s e).altitudeMetersMin =
      (if e < s.altitudeMetersMin then e else s.altitudeMetersMin) ∧
    (elevationUpdate s e).altitudeMetersMax =
      (if e > s.altitudeMetersMax then e else s.altitudeMetersMax) := by
  simp only [elevationUpdate, h, hs, if_false]
  split_ifs <;> simp

theorem foldl_elevationUpdate_filter (es : List Int) (s : ElevationState) :
    (es.filter isValidElevation).foldl elevationUpdate s = es.foldl elevationUpdate s := by
  induction es generalizing s with
  | nil => rfl
  | cons e es ih =>
    by_cases h : e < deepestPointOnLand
    · rw [List.filter_cons, isValidElevation_false h, List.foldl_cons,
        elevationUpdate_invalid s e h]
      exact ih s
    · rw [List.filter_cons, isValidElevation_true h, List.foldl_cons]
      simp only [if_true, List.foldl_cons]
      exact ih _

theorem foldl_elevationUpdate_next (es : List Int) (s : ElevationState)
    (hs : s.lastElevation ≠ maxInt) (hes : ∀ e ∈ es, e < maxInt)
    (hup : wrapInt s.metersUphill = s.metersUphill)
    (hdown : wrapInt s.metersDownhill = s.metersDownhill) :
    (es.foldl elevationUpdate s).metersUphill
      = wrapInt (s.metersUphill + ascentOf (s.lastElevation :: es.filter isValidElevation)) ∧
    (es.foldl elevationUpdate s).metersDownhill
      = wrapInt (s.metersDownhill
          + descentOf (s.lastElevation :: es.filter isValidElevation)) ∧
    ((es.foldl elevationUpdate s).altitudeMetersMin = s.altitudeMetersMin ∨
      (es.foldl elevationUpdate s).altitudeMetersMin ∈ es.filter isValidElevation) ∧
    (es.foldl elevationUpdate s).altitudeMetersMin ≤ s.altitudeMetersMin ∧
    (∀ v ∈ es.filter isValidElevation, (es.foldl elevationUpdate s).altitudeMetersMin ≤ v) ∧
    ((es.foldl elevationUpdate s).altitudeMetersMax = s.altitudeMetersMax ∨
      (es.foldl elevationUpdate s).altitudeMetersMax ∈ es.filter isValidElevation) ∧
    s.altitudeMetersMax ≤ (es.foldl elevationUpdate s).altitudeMetersMax ∧
    (∀ v ∈ es.filter isValidElevation, v ≤ (es.foldl elevationUpdate s).altitudeMetersMax) := by
  induction es generalizing s with
  | nil =>
    simp only [List.foldl_nil, List.filter_nil, ascentOf, descentOf, add_zero, hup, hdown,
      List.not_mem_nil, le_refl, true_or, false_imp_iff, implies_true, and_self]
  | cons e es ih =>
    have hes1 : ∀ x ∈ es, x < maxInt := fun x hx => hes x (List.mem_cons_of_mem _ hx)
    by_cases h : e < deepestPointOnLand
    · have hf : (e :: es).filter isValidElevation = es.filter isValidElevation := by
        rw [List.filter_cons, isValidElevation_false h]; rfl
      rw [hf, List.foldl_cons, elevationUpdate_invalid s e h]
      exact ih s hs hes1 hup hdown
    · have hf : (e :: es).filter isValidElevation = e :: es.filter isValidElevation := by
        rw [List.filter_cons, isValidElevation_true h]; rfl
      have he : e ≠ maxInt := ne_of_lt (hes e (List.mem_cons_self _ _))
      obtain ⟨p1, p2, p3, p4, p5⟩ := elevationUpdate_next s e h hs
      have q2 : wrapInt (elevationUpdate s e).metersUphill
          = (elevationUpdate s e).metersUphill := by
        rw [p2]
        split_ifs
        · exact wrapInt_idem _
        · exact hup
      have q3 : wrapInt (elevationUpdate s e).metersDownhill
          = (elevationUpdate s e).metersDownhill := by
        rw [p3]
        split_ifs
        · exact hdown
        · exact wrapInt_idem _
      obtain ⟨i1, i2, i3, i4, i5, i6, i7, i8⟩ :=
        ih (elevationUpdate s e) (by rw [p1]; exact he) hes1 q2 q3
      rw [p1] at i1 i2
      rw [hf, List.foldl_cons]
      refine ⟨?_, ?_, ?_, ?_, ?_, ?_, ?_, ?_⟩
      · rw [i1, p2]
        simp only [ascentOf]
        unfold addInt subInt wrapInt
        split_ifs <;> omega
      · rw [i2, p3]
        simp only [descentOf]
        unfold addInt subInt wrapInt
        split_ifs <;> omega
      · rcases i3 with i3 | i3
        · rw [i3, p4]
          split_ifs
          · exact Or.inr (List.mem_cons_self _ _)
          · exact Or.inl rfl
        · exact Or.inr (List.mem_cons_of_mem _ i3)
      · refine le_trans i4 ?_
        rw [p4]
        split_ifs <;> omega
      · intro v hv
        rcases List.mem_cons.mp hv with rfl | hv
        · refine le_trans i4 ?_
          rw [p4]
          split_ifs <;> omega
        · exact i5 v hv
      · rcases i6 with i6 | i6
        · rw [i6, p5]
          split_ifs
          · exact Or.inr (List.mem_cons_self _ _)
          · exact Or.inl rfl
        · exact Or.inr (List.mem_cons_of_mem _ i6)
      · refine le_trans ?_ i7
        rw [p5]
        split_ifs <;> omega
      · intro v hv
        rcases List.mem_cons.mp hv with rfl | hv
        · refine le_trans ?_ i7
          rw [p5]
          split_ifs <;> omega
        · exact i8 v hv

theorem foldl_elevationUpdate_init (es : List Int) (hes : ∀ e ∈ es, e < maxInt)
    (hv : ∃ e ∈ es, ¬ e < deepestPointOnLand) :
    (es.foldl elevationUpdate elevationInit).metersUphill
      = wrapInt (ascentOf (es.filter isValidElevation)) ∧
    (es.foldl elevationUpdate elevationInit).metersDownhill
      = wrapInt (descentOf (es.filter isValidElevation)) ∧
    (es.foldl elevationUpdate elevationInit).altitudeMetersMin
      ∈ es.filter isValidElevation ∧
    (∀ v ∈ es.filter isValidElevation,
      (es.foldl elevationUpdate elevationInit).altitudeMetersMin ≤ v) ∧
    (es.foldl elevationUpdate elevationInit).altitudeMetersMax
      ∈ es.filter isValidElevation ∧
    (∀ v ∈ es.filter isValidElevation,
      v ≤ (es.foldl elevationUpdate elevationInit).altitudeMetersMax) := by
  induction es with
  | nil =>
    obtain ⟨e, he, _⟩ := hv
    exact absurd he (List.not_mem_nil e)
  | cons e es ih =>
    have hes1 : ∀ x ∈ es, x < maxInt := fun x hx => hes x (List.mem_cons_of_mem _ hx)
    by_cases h : e < deepestPointOnLand
    · have hf : (e :: es).filter isValidElevation = es.filter isValidElevation := by
        rw [List.filter_cons, isValidElevation_false h]; rfl
      rw [hf, List.foldl_cons, elevationUpdate_invalid _ e h]
      apply ih hes1
      obtain ⟨x, hx, hx2⟩ := hv
      rcases List.mem_cons.mp hx with rfl | hx
      · exact absurd h hx2
      · exact ⟨x, hx, hx2⟩
    · have hf : (e :: es).filter isValidElevation = e :: es.filter isValidElevation := by
        rw [List.filter_cons, isValidElevation_true h]; rfl
      have he : e ≠ maxInt := ne_of_lt (hes e (List.mem_cons_self _ _))
      rw [hf, List.foldl_cons, elevationUpdate_first _ e h rfl]
      obtain ⟨i1, i2, i3, i4, i5, i6, i7, i8⟩ := foldl_elevationUpdate_next es
        { elevationInit with lastElevation := e, altitudeMetersMin := e,
                             altitudeMetersMax := e }
        he hes1 (show wrapInt (0 : Int) = 0 by decide) (show wrapInt (0 : Int) = 0 by decide)
      simp only at i1 i2 i3 i4 i5 i6 i7 i8
      refine ⟨?_, ?_, ?_, ?_, ?_, ?_⟩
      · rw [i1]
        simp [elevationInit]
      · rw [i2]
        simp [elevationInit]
      · rcases i3 with i3 | i3
        · rw [i3]; exact List.mem_cons_self _ _
        · exact List.mem_cons_of_mem _ i3
      · intro v hv
        rcases List.mem_cons.mp hv with rfl | hv
        · exact i4
        · exact i5 v hv
      · rcases i6 with i6 | i6
        · rw [i6]; exact List.mem_cons_self _ _
        · exact List.mem_cons_of_mem _ i6
      · intro v hv
        rcases List.mem_cons.mp hv with rfl | hv
        · exact i7
        · exact i8 v hv

/-- C4: the elevation pass ends in the same state (ascent, descent, min, max and last valid
elevation) as the pass run on the rows that remain after deleting every row whose parsed
elevation is below -430; such a row changes no field, a row at exactly -430 is kept and
processed.  Elevations 100, 150, 120, -500, 130 give ascent 60, descent -30, min 100,
max 150. -/
theorem elevationPass_validRows (header : Record) (rows : List Record) :
    elevationPass (header :: rows) = elevationPass (header :: validRows rows) ∧
    (∀ r, r ∈ validRows rows ↔ r ∈ rows ∧ ¬ elevationOf r < -430) ∧
    (validRows rows).Sublist rows ∧
    (∀ s r, elevationOf r < -430 → elevationStep s r = s) ∧
    (∀ r ∈ rows, elevationOf r = -430 → r ∈ validRows rows) ∧
    (∀ s r, elevationOf r = -430 → (elevationStep s r).lastElevation = -430) ∧
    ((elevationPass [header, mkRecord "100" "" "", mkRecord "150" "" "",
        mkRecord "120" "" "", mkRecord "-500" "" "", mkRecord "130" "" ""]).metersUphill = 60 ∧
      (elevationPass [header, mkRecord "100" "" "", mkRecord "150" "" "",
        mkRecord "120" "" "", mkRecord "-500" "" "", mkRecord "130" "" ""]).metersDownhill
          = -30 ∧
      (elevationPass [header, mkRecord "100" "" "", mkRecord "150" "" "",
        mkRecord "120" "" "", mkRecord "-500" "" "", mkRecord "130" "" ""]).altitudeMetersMin
          = 100 ∧
      (elevationPass [header, mkRecord "100" "" "", mkRecord "150" "" "",
        mkRecord "120" "" "", mkRecord "-500" "" "", mkRecord "130" "" ""]).altitudeMetersMax
          = 150) := by
  have hmem : ∀ r, r ∈ validRows rows ↔ r ∈ rows ∧ ¬ elevationOf r < -430 := by
    intro r
    simp [validRows, isValidElevation, deepestPointOnLand]
  refine ⟨?_, hmem, List.filter_sublist _, ?_, ?_, ?_, ?_⟩
  · rw [elevationPass_eq_foldl, elevationPass_eq_foldl]
    have h := validElevations_eq rows
    unfold validElevations at h
    rw [h, foldl_elevationUpdate_filter]
  · intro s r hr
    exact elevationUpdate_invalid s _ hr
  · intro r hr he
    exact (hmem r).mpr ⟨hr, by rw [he]; decide⟩
  · intro s r he
    unfold elevationStep
    rw [he]
    by_cases hs : s.lastElevation = maxInt
    · rw [elevationUpdate_first s _ (by decide) hs]
    · exact (elevationUpdate_next s _ (by decide) hs).1
  · rw [elevationPass_eq_foldl]
    decide

/-- C4, at the five elevations of the specification: deleting the row at -500 leaves the
result of the pass unchanged. -/
theorem elevationPass_validRows_witness :
    elevationPass [headerRecord, mkRecord "100" "" "", mkRecord "150" "" "",
        mkRecord "120" "" "", mkRecord "-500" "" "", mkRecord "130" "" ""]
      = elevationPass [headerRecord, mkRecord "100" "" "", mkRecord "150" "" "",
        mkRecord "120" "" "", mkRecord "130" "" ""] :=
  (elevationPass_validRows headerRecord [mkRecord "100" "" "", mkRecord "150" "" "",
      mkRecord "120" "" "", mkRecord "-500" "" "", mkRecord "130" "" ""]).1.trans (by decide)

/-- C5 fails as stated: for the elevations -430 and 9223372036854775806, both below the
maximum `int` and valid, the difference overflows and the pass ends with a negative
ascent, not with the sum of the positive differences. -/
theorem elevationPass_ascent_counterexample :
    (∀ r ∈ [mkRecord "-430" "" "", mkRecord "9223372036854775806" "" ""],
      elevationOf r < maxInt) ∧
    (∃ r ∈ [mkRecord "-430" "" "", mkRecord "9223372036854775806" "" ""],
      -430 ≤ elevationOf r) ∧
    validElevations [mkRecord "-430" "" "", mkRecord "9223372036854775806" "" ""]
      = [-430, 9223372036854775806] ∧
    ascentOf (validElevations [mkRecord "-430" "" "", mkRecord "9223372036854775806" "" ""])
      = 9223372036854776236 ∧
    (elevationPass [headerRecord, mkRecord "-430" "" "",
        mkRecord "9223372036854775806" "" ""]).metersUphill = -9223372036854775380 ∧
    (elevationPass [headerRecord, mkRecord "-430" "" "",
        mkRecord "9223372036854775806" "" ""]).metersUphill
      ≠ ascentOf (validElevations
          [mkRecord "-430" "" "", mkRecord "9223372036854775806" "" ""]) := by
  refine ⟨by decide, by decide, by decide, by decide, by decide, by decide⟩

/-- C5, amended: when all parsed elevations are below the maximum `int` and at least one is
valid, with `vs` the valid elevations in row order the pass ends with ascent and descent
equal to the sums of the positive and of the non-positive differences of consecutive
elements of `vs`, reduced to the range of `int` by wrap-around (so equal to these sums
whenever they are `int` values), with min the least and max the greatest element of `vs`. -/
theorem elevationPass_spec (header : Record) (rows : List Record)
    (hmax : ∀ r ∈ rows, elevationOf r < maxInt)
    (hvalid : ∃ r ∈ rows, -430 ≤ elevationOf r) :
    (elevationPass (header :: rows)).metersUphill
      = wrapInt (ascentOf (validElevations rows)) ∧
    (elevationPass (header :: rows)).metersDownhill
      = wrapInt (descentOf (validElevations rows)) ∧
    (InIntRange (ascentOf (validElevations rows)) →
      (elevationPass (header :: rows)).metersUphill = ascentOf (validElevations rows)) ∧
    (InIntRange (descentOf (validElevations rows)) →
      (elevationPass (header :: rows)).metersDownhill = descentOf (validElevations rows)) ∧
    (elevationPass (header :: rows)).altitudeMetersMin ∈ validElevations rows ∧
    (∀ v ∈ validElevations rows, (elevationPass (header :: rows)).altitudeMetersMin ≤ v) ∧
    (elevationPass (header :: rows)).altitudeMetersMax ∈ validElevations rows ∧
    (∀ v ∈ validElevations rows, v ≤ (elevationPass (header :: rows)).altitudeMetersMax) := by
  have hes : ∀ e ∈ rows.map elevationOf, e < maxInt := by
    intro e he
    obtain ⟨r, hr, rfl⟩ := List.mem_map.mp he
    exact hmax r hr
  have hv : ∃ e ∈ rows.map elevationOf, ¬ e < deepestPointOnLand := by
    obtain ⟨r, hr, hr2⟩ := hvalid
    refine ⟨elevationOf r, List.mem_map_of_mem _ hr, ?_⟩
    unfold deepestPointOnLand
    omega
  obtain ⟨h1, h2, h3, h4, h5, h6⟩ := foldl_elevationUpdate_init _ hes hv
  rw [← elevationPass_eq_foldl header, ← validElevations_eq] at h1 h2 h3 h4 h5 h6
  refine ⟨h1, h2, fun hr => ?_, fun hr => ?_, h3, h4, h5, h6⟩
  · rw [h1, wrapInt_of_inIntRange hr]
  · rw [h2, wrapInt_of_inIntRange hr]

/-- C5, amended, at the five elevations of the specification. -/
theorem elevationPass_spec_witness :
    (elevationPass [headerRecord, mkRecord "100" "" "", mkRecord "150" "" "",
        mkRecord "120" "" "", mkRecord "-500" "" "", mkRecord "130" "" ""]).metersUphill
      = ascentOf [100, 150, 120, 130] :=
  ((elevationPass_spec headerRecord [mkRecord "100" "" "", mkRecord "150" "" "",
      mkRecord "120" "" "", mkRecord "-500" "" "", mkRecord "130" "" ""]
    (by decide) (by decide)).2.2.1 (by decide)).trans (by decide)

/-! ## Rejected numeric fields -/

theorem atoiFast_cases (l : List Char) :
    (atoiFast l = (0, some NumError.errSyntax)) ∨ (atoiFast l).2 = none := by
  unfold atoiFast
  split
  · exact Or.inl rfl
  · dsimp only
    split_ifs <;>
      first
      | exact Or.inl rfl
      | (split <;> first | exact Or.inl rfl | exact Or.inr rfl)

theorem parseInt_cases (l : List Char) :
    (parseInt l = (0, some NumError.errSyntax)) ∨
    (parseInt l = (9223372036854775807, some NumError.errRange) ∧ l.head? ≠ some '-') ∨
    (parseInt l = (-9223372036854775808, some NumError.errRange) ∧ l.head? = some '-') ∨
    (parseInt l).2 = none := by
  unfold parseInt
  split
  · exact Or.inl rfl
  · rename_i c cs
    dsimp only
    split
    · exact Or.inl rfl
    · split
      · rename_i h
        refine Or.inr (Or.inl ⟨rfl, ?_⟩)
        simp only [Bool.and_eq_true, Bool.not_eq_true', decide_eq_false_iff_not] at h
        simpa using h.1
      · split
        · rename_i h
          refine Or.inr (Or.inr (Or.inl ⟨rfl, ?_⟩))
          simp only [Bool.and_eq_true, decide_eq_true_eq] at h
          simpa using h.1
        · exact Or.inr (Or.inr (Or.inr rfl))

theorem atoi_cases (s : String) :
    (atoi s = (0, some NumError.errSyntax)) ∨
    (atoi s = (maxInt, some NumError.errRange) ∧ s.data.head? ≠ some '-') ∨
    (atoi s = (minInt, some NumError.errRange) ∧ s.data.head? = some '-') ∨
    (atoi s).2 = none := by
  unfold atoi
  split
  · rcases atoiFast_cases s.data with h | h
    · exact Or.inl h
    · exact Or.inr (Or.inr (Or.inr h))
  · exact parseInt_cases s.data

/-- C10 fails as stated: `strconv.Atoi` rejects `9223372036854775808` (out of range) and
`99999999999999999999x` (not a decimal integer), and the value the passes use for such a
Distance or Elevation field is 9223372036854775807, not 0. -/
theorem atoi_rejected_counterexample :
    (atoi "9223372036854775808").2 = some NumError.errRange ∧
    distanceOf (mkRecord "" "9223372036854775808" "") = 9223372036854775807 ∧
    elevationOf (mkRecord "9223372036854775808" "" "") = 9223372036854775807 ∧
    (atoi "99999999999999999999x").2 = some NumError.errRange ∧
    distanceOf (mkRecord "" "99999999999999999999x" "") = 9223372036854775807 ∧
    (atoi "-9223372036854775809").2 = some NumError.errRange ∧
    elevationOf (mkRecord "-9223372036854775809" "" "") = -9223372036854775808 ∧
    ¬ (∀ s : String, (atoi s).2 ≠ none → (atoi s).1 = 0) := by
  refine ⟨by decide, by decide, by decide, by decide, by decide, by decide, by decide, ?_⟩
  intro h
  exact absurd (h "9223372036854775808" (by decide)) (by decide)

/-- C10, amended: for a field string that `strconv.Atoi` rejects, the value the passes use
is 0 when the error is a syntax error (as for the empty string, `12.5` and `abc`), and the
nearest bound of `int` when the error is a range error: the smallest `int` for a string
starting with `-`, the largest `int` otherwise.  The row is processed in every case: its
label becomes a key of each frequency table. -/
theorem atoi_rejected_spec (s : String) :
    ((atoi s).2 = some NumError.errSyntax → (atoi s).1 = 0) ∧
    ((atoi s).2 = some NumError.errRange →
      (atoi s).1 = if s.data.head? = some '-' then minInt else maxInt) ∧
    (∀ r : Record, r.distance = s → distanceOf r = (atoi s).1) ∧
    (∀ r : Record, r.elevation = s → elevationOf r = (atoi s).1) ∧
    (atoi "" = (0, some NumError.errSyntax) ∧ atoi "12.5" = (0, some NumError.errSyntax) ∧
      atoi "abc" = (0, some NumError.errSyntax)) ∧
    (∀ (label : List String → String) (header r : Record) (rows : List Record),
      r.distance = s → r ∈ rows →
      label (waytagsOf r) ∈ tableKeys (tablePass label (header :: rows))) := by
  refine ⟨?_, ?_, ?_, ?_, ⟨by decide, by decide, by decide⟩, ?_⟩
  · intro h
    rcases atoi_cases s with h1 | ⟨h1, _⟩ | ⟨h1, _⟩ | h1
    · rw [h1]
    · rw [h1] at h; exact absurd h (by decide)
    · rw [h1] at h; exact absurd h (by decide)
    · rw [h1] at h; exact absurd h (by decide)
  · intro h
    rcases atoi_cases s with h1 | ⟨h1, h2⟩ | ⟨h1, h2⟩ | h1
    · rw [h1] at h; exact absurd h (by decide)
    · rw [h1, if_neg h2]
    · rw [h1, if_pos h2]
    · rw [h1] at h; exact absurd h (by decide)
  · intro r hr
    rw [distanceOf, hr]
  · intro r hr
    rw [elevationOf, hr]
  · intro label header r rows _ hr
    exact (tablePass_keys label header rows _).mpr ⟨r, hr, rfl⟩

/-- C10, amended, at a Distance field with a decimal point. -/
theorem atoi_rejected_spec_witness :
    distanceOf (mkRecord "" "12.5" "highway=path") = 0 ∧
    "highway=path" ∈ tableKeys
      (highwaysPass [headerRecord, mkRecord "" "12.5" "highway=path"]) :=
  ⟨((atoi_rejected_spec "12.5").2.2.1 (mkRecord "" "12.5" "highway=path") rfl).trans
      ((atoi_rejected_spec "12.5").1 (by decide)),
    (atoi_rejected_spec "12.5").2.2.2.2.2 getHighwayIdentifier headerRecord
      (mkRecord "" "12.5" "highway=path") [mkRecord "" "12.5" "highway=path"] rfl
      (List.mem_singleton.mpr rfl)⟩

/-! ## Signs of the stored values -/

theorem mem_table_iff (t : Table) (h : (tableKeys t).Nodup) (k : String) (v : Int) :
    (k, v) ∈ t ↔ k ∈ tableKeys t ∧ tableGet t k = v := by
  induction t with
  | nil => simp [tableKeys]
  | cons e rest ih =>
    obtain ⟨k1, v1⟩ := e
    have h1 : k1 ∉ tableKeys rest ∧ (tableKeys rest).Nodup := by
      simpa [tableKeys] using h
    have ih1 := ih h1.2
    have hk : tableKeys ((k1, v1) :: rest) = k1 :: tableKeys rest := rfl
    rw [hk, List.mem_cons, List.mem_cons, ih1]
    by_cases hkk : k1 = k
    · subst hkk
      simp only [tableGet, if_true, Prod.mk.injEq, true_and, true_or]
      constructor
      · rintro (h2 | h2)
        · exact h2.symm
        · exact absurd h2.1 h1.1
      · intro h2
        exact Or.inl h2.symm
    · have hkk2 : ¬ k = k1 := fun hh => hkk hh.symm
      simp only [tableGet, hkk, hkk2, if_false, Prod.mk.injEq, false_and, false_or]

theorem distanceSum_sublist (sub rows : List Record) (hs : sub.Sublist rows)
    (hnn : ∀ r ∈ rows, 0 ≤ distanceOf r) :
    0 ≤ distanceSum sub ∧ distanceSum sub ≤ distanceSum rows := by
  have h2 : ∀ a ∈ rows.map distanceOf, (0 : Int) ≤ a := by
    intro a ha
    obtain ⟨r, hr, rfl⟩ := List.mem_map.mp ha
    exact hnn r hr
  have h1 : ∀ a ∈ sub.map distanceOf, (0 : Int) ≤ a := by
    intro a ha
    obtain ⟨r, hr, rfl⟩ := List.mem_map.mp ha
    exact hnn r (hs.subset hr)
  exact ⟨List.sum_nonneg h1, (hs.map distanceOf).sum_le_sum h2⟩

theorem wrapInt_distanceSum_sublist (sub rows : List Record) (hs : sub.Sublist rows)
    (hnn : ∀ r ∈ rows, 0 ≤ distanceOf r) (hr : InIntRange (distanceSum rows)) :
    0 ≤ wrapInt (distanceSum sub) := by
  obtain ⟨h1, h2⟩ := distanceSum_sublist sub rows hs hnn
  have h3 : InIntRange (distanceSum sub) := by
    unfold InIntRange minInt maxInt at *
    omega
  rw [wrapInt_of_inIntRange h3]
  exact h1

/-- C11 fails as stated: a Distance field `-5` is accepted by `strconv.Atoi`, and the value
stored for its label and the counter `highwaysUnpaved` are then -5; with two rows of
distance 9223372036854775807 the stored sum wraps around to -2. -/
theorem tables_nonneg_counterexample :
    (highwaysPass [headerRecord, mkRecord "" "-5" "highway=path"] = [("highway=path", -5)]) ∧
    (pavedPass [headerRecord, mkRecord "" "-5" "highway=path"]).highwaysUnpaved = -5 ∧
    (pavedPass [headerRecord, mkRecord "" "-5" "highway=primary"]).highwaysPaved = -5 ∧
    (highwaysPass [headerRecord, mkRecord "" "9223372036854775807" "highway=path",
      mkRecord "" "9223372036854775807" "highway=path"] = [("highway=path", -2)]) ∧
    ¬ (∀ rows : List Record, ∀ kv ∈ highwaysPass (headerRecord :: rows), 0 ≤ kv.2) := by
  refine ⟨by decide, by decide, by decide, by decide, ?_⟩
  intro h
  exact absurd (h [mkRecord "" "-5" "highway=path"] ("highway=path", -5) (by decide))
    (by decide)

/-- C11, amended: when every parsed Distance field is non-negative and the exact sum of
the Distance fields of all rows is an `int` value, then after every step of every frequency
pass (after the first `n` rows, for every `n`) each value stored in the table is
non-negative, and so are `highwaysPaved` and `highwaysUnpaved`. -/
theorem tables_nonneg (header : Record) (rows : List Record)
    (hnn : ∀ r ∈ rows, 0 ≤ distanceOf r) (hr : InIntRange (distanceSum rows)) (n : Nat) :
    (∀ pass label, (pass, label) ∈ [(highwaysPass, getHighwayIdentifier),
        (surfacesPass, surfaceLabel), (smoothnessPass, smoothnessLabel),
        (mtbScalesPass, mtbScaleLabel), (sacScalesPass, sacScaleLabel)] →
      (∀ kv ∈ pass (header :: rows.take n), 0 ≤ kv.2) ∧
      (∀ k, 0 ≤ tableGet (pass (header :: rows.take n)) k)) ∧
    0 ≤ (pavedPass (header :: rows.take n)).highwaysPaved ∧
    0 ≤ (pavedPass (header :: rows.take n)).highwaysUnpaved := by
  refine ⟨?_, ?_, ?_⟩
  · intro pass label hp
    have hpass : pass = tablePass label := by
      simp only [List.mem_cons, Prod.mk.injEq, List.mem_singleton, List.not_mem_nil,
        or_false] at hp
      rcases hp with ⟨rfl, rfl⟩ | ⟨rfl, rfl⟩ | ⟨rfl, rfl⟩ | ⟨rfl, rfl⟩ | ⟨rfl, rfl⟩ <;> rfl
    subst hpass
    have hget : ∀ k, 0 ≤ tableGet (tablePass label (header :: rows.take n)) k := by
      intro k
      rw [tablePass_get]
      exact wrapInt_distanceSum_sublist _ rows
        ((List.filter_sublist _).trans (List.take_sublist n rows)) hnn hr
    refine ⟨?_, hget⟩
    rintro ⟨k, v⟩ hkv
    have := (mem_table_iff _ (tablePass_nodup label header (rows.take n)) k v).mp hkv
    rw [← this.2]
    exact hget k
  · rw [(pavedPass_eq header (rows.take n)).1]
    exact wrapInt_distanceSum_sublist _ rows
      ((List.filter_sublist _).trans (List.take_sublist n rows)) hnn hr
  · rw [(pavedPass_eq header (rows.take n)).2]
    exact wrapInt_distanceSum_sublist _ rows
      ((List.filter_sublist _).trans (List.take_sublist n rows)) hnn hr

/-- C11, amended, at the two data rows of the specification, after the first row. -/
theorem tables_nonneg_witness :
    0 ≤ (pavedPass (headerRecord ::
      [mkRecord "" "100" "highway=track tracktype=grade2 surface=gravel",
       mkRecord "" "300" "highway=residential surface=asphalt"].take 1)).highwaysUnpaved :=
  (tables_nonneg headerRecord
    [mkRecord "" "100" "highway=track tracktype=grade2 surface=gravel",
     mkRecord "" "300" "highway=residential surface=asphalt"]
    (by decide) (by decide) 1).2.2

/-! ## Signs of ascent and descent -/

theorem foldl_elevationUpdate_signs (es : List Int) (s : ElevationState)
    (hup : 0 ≤ s.metersUphill) (hdown : s.metersDownhill ≤ 0)
    (hex : elevationExact s es = true) (n : Nat) :
    ((es.take n).foldl elevationUpdate s).metersDownhill ≤ 0 ∧
    0 ≤ ((es.take n).foldl elevationUpdate s).metersUphill := by
  induction es generalizing s n with
  | nil => simpa using ⟨hdown, hup⟩
  | cons e es ih =>
    cases n with
    | zero => simpa using ⟨hdown, hup⟩
    | succ n =>
      simp only [List.take_succ_cons, List.foldl_cons]
      simp only [elevationExact, Bool.and_eq_true] at hex
      obtain ⟨hstep, hrest⟩ := hex
      by_cases h : e < deepestPointOnLand
      · rw [elevationUpdate_invalid s e h] at hrest ⊢
        exact ih s hup hdown hrest n
      · by_cases hs : s.lastElevation = maxInt
        · apply ih _ _ _ hrest n
          · rw [elevationUpdate_first s e h hs]; exact hup
          · rw [elevationUpdate_first s e h hs]; exact hdown
        · obtain ⟨_, p2, p3, _, _⟩ := elevationUpdate_next s e h hs
          simp only [h, hs, if_false, Bool.and_eq_true, decide_eq_true_eq] at hstep
          obtain ⟨hsub, hadd⟩ := hstep
          apply ih _ _ _ hrest n
          · rw [p2]
            by_cases hgt : e > s.lastElevation
            · simp only [hgt, if_true, decide_eq_true_eq] at hadd ⊢
              rw [hadd]
              omega
            · simp only [hgt, if_false]
              exact hup
          · rw [p3]
            by_cases hgt : e > s.lastElevation
            · simp only [hgt, if_true]
              exact hdown
            · simp only [hgt, if_false, decide_eq_true_eq] at hadd ⊢
              rw [hadd]
              omega

/-- C12: in exact integer arithmetic, that is when no subtraction or addition of the
elevation pass overflows, at every point of the pass (after the first `n` rows, for every
`n`, hence also at its end) `metersDownhill` is at most 0 and `metersUphill` is at
least 0. -/
theorem elevationPass_signs (header : Record) (rows : List Record)
    (hex : elevationExact elevationInit (rows.map elevationOf) = true) (n : Nat) :
    ((elevationPass (header :: rows.take n)).metersDownhill ≤ 0 ∧
      0 ≤ (elevationPass (header :: rows.take n)).metersUphill) ∧
    ((elevationPass (header :: rows)).metersDownhill ≤ 0 ∧
      0 ≤ (elevationPass (header :: rows)).metersUphill) := by
  have key : ∀ m, (elevationPass (header :: rows.take m)).metersDownhill ≤ 0 ∧
      0 ≤ (elevationPass (header :: rows.take m)).metersUphill := by
    intro m
    rw [elevationPass_eq_foldl, List.map_take]
    exact foldl_elevationUpdate_signs _ elevationInit (by decide) (by decide) hex m
  refine ⟨key n, ?_⟩
  have h := key rows.length
  rwa [List.take_length] at h

/-- C12, at the five elevations of the specification, after the first three rows. -/
theorem elevationPass_signs_witness :
    (elevationPass (headerRecord :: [mkRecord "100" "" "", mkRecord "150" "" "",
        mkRecord "120" "" "", mkRecord "-500" "" "",
        mkRecord "130" "" ""].take 3)).metersDownhill ≤ 0 :=
  (elevationPass_signs headerRecord [mkRecord "100" "" "", mkRecord "150" "" "",
      mkRecord "120" "" "", mkRecord "-500" "" "", mkRecord "130" "" ""]
    (by decide) 3).1.1

/-! ## Percentages -/

theorem percent_sum_keys (f : String → Int) (total : Int) (keys : List String) :
    (keys.map (fun key => percent (f key) total)).sum
      = (((keys.map f).sum : Int) : ℚ) / (total : ℚ) * 100 := by
  induction keys with
  | nil => simp
  | cons k rest ih =>
    rw [List.map_cons, List.sum_cons, ih, List.map_cons, List.sum_cons]
    unfold percent
    push_cast
    ring

/-- C13: for every frequency table whose total, the sum of its values, is non-zero, the
percentages `value / total * 100` computed for its keys, taken as exact rationals, sum
to exactly 100. -/
theorem percent_sum (t : Table) (hk : (tableKeys t).Nodup)
    (htotal : tableTotal t = (t.map Prod.snd).sum) (hnz : tableTotal t ≠ 0) :
    ((tableKeys t).map (fun key => percent (tableGet t key) (tableTotal t))).sum = 100 := by
  rw [percent_sum_keys, map_tableGet_tableKeys t hk, ← htotal]
  have h : ((tableTotal t : Int) : ℚ) ≠ 0 := by exact_mod_cast hnz
  rw [div_self h]
  norm_num

/-- C13, at the highway table of the two data rows of the specification. -/
theorem percent_sum_witness :
    ((tableKeys (highwaysPass [headerRecord,
        mkRecord "" "100" "highway=track tracktype=grade2 surface=gravel",
        mkRecord "" "300" "highway=residential surface=asphalt"])).map
      (fun key => percent (tableGet (highwaysPass [headerRecord,
        mkRecord "" "100" "highway=track tracktype=grade2 surface=gravel",
        mkRecord "" "300" "highway=residential surface=asphalt"]) key)
        (tableTotal (highwaysPass [headerRecord,
        mkRecord "" "100" "highway=track tracktype=grade2 surface=gravel",
        mkRecord "" "300" "highway=residential surface=asphalt"])))).sum = 100 :=
  percent_sum (highwaysPass [headerRecord,
      mkRecord "" "100" "highway=track tracktype=grade2 surface=gravel",
      mkRecord "" "300" "highway=residential surface=asphalt"])
    (by decide) (by decide) (by decide)

/-! ## Order of the rows -/

theorem distanceSum_perm {rows1 rows2 : List Record} (h : rows1.Perm rows2) :
    distanceSum rows1 = distanceSum rows2 :=
  (h.map distanceOf).sum_eq

/-- C14: for every list of non-header rows and every permutation of it, each of the five
frequency tables has the same keys with the same values, and `highwaysPaved` and
`highwaysUnpaved` are the same, whereas the elevation pass depends on the order: the
elevations 100, 150, 120 give descent -30 and the elevations 100, 120, 150 give
descent 0. -/
theorem passes_perm (header : Record) (rows1 rows2 : List Record) (h : rows1.Perm rows2) :
    (∀ pass label, (pass, label) ∈ [(highwaysPass, getHighwayIdentifier),
        (surfacesPass, surfaceLabel), (smoothnessPass, smoothnessLabel),
        (mtbScalesPass, mtbScaleLabel), (sacScalesPass, sacScaleLabel)] →
      (∀ k, k ∈ tableKeys (pass (header :: rows1)) ↔ k ∈ tableKeys (pass (header :: rows2))) ∧
      (∀ k, tableGet (pass (header :: rows1)) k = tableGet (pass (header :: rows2)) k) ∧
      (∀ kv, kv ∈ pass (header :: rows1) ↔ kv ∈ pass (header :: rows2))) ∧
    pavedPass (header :: rows1) = pavedPass (header :: rows2) ∧
    ([mkRecord "100" "" "", mkRecord "150" "" "", mkRecord "120" "" ""].Perm
        [mkRecord "100" "" "", mkRecord "120" "" "", mkRecord "150" "" ""] ∧
      (elevationPass [header, mkRecord "100" "" "", mkRecord "150" "" "",
        mkRecord "120" "" ""]).metersDownhill = -30 ∧
      (elevationPass [header, mkRecord "100" "" "", mkRecord "120" "" "",
        mkRecord "150" "" ""]).metersDownhill = 0) := by
  refine ⟨?_, ?_, ?_, ?_, ?_⟩
  · intro pass label hp
    have hpass : pass = tablePass label := by
      simp only [List.mem_cons, Prod.mk.injEq, List.mem_singleton, List.not_mem_nil,
        or_false] at hp
      rcases hp with ⟨rfl, rfl⟩ | ⟨rfl, rfl⟩ | ⟨rfl, rfl⟩ | ⟨rfl, rfl⟩ | ⟨rfl, rfl⟩ <;> rfl
    subst hpass
    have hkeys : ∀ k, k ∈ tableKeys (tablePass label (header :: rows1)) ↔
        k ∈ tableKeys (tablePass label (header :: rows2)) := by
      intro k
      rw [tablePass_keys, tablePass_keys]
      constructor
      · rintro ⟨r, hr, hk⟩
        exact ⟨r, h.subset hr, hk⟩
      · rintro ⟨r, hr, hk⟩
        exact ⟨r, h.symm.subset hr, hk⟩
    have hget : ∀ k, tableGet (tablePass label (header :: rows1)) k
        = tableGet (tablePass label (header :: rows2)) k := by
      intro k
      rw [tablePass_get, tablePass_get]
      exact congrArg wrapInt (distanceSum_perm (h.filter _))
    refine ⟨hkeys, hget, ?_⟩
    rintro ⟨k, v⟩
    rw [mem_table_iff _ (tablePass_nodup label header rows1),
      mem_table_iff _ (tablePass_nodup label header rows2), hkeys k, hget k]
  · have h1 := pavedPass_eq header rows1
    have h2 := pavedPass_eq header rows2
    have e1 : distanceSum (pavedRows rows1) = distanceSum (pavedRows rows2) :=
      distanceSum_perm (h.filter _)
    have e2 : distanceSum (unpavedRows rows1) = distanceSum (unpavedRows rows2) :=
      distanceSum_perm (h.filter _)
    cases hp1 : pavedPass (header :: rows1) with
    | mk a1 b1 =>
      cases hp2 : pavedPass (header :: rows2) with
      | mk a2 b2 =>
        rw [hp1] at h1
        rw [hp2] at h2
        simp only at h1 h2
        rw [h1.1, h1.2, h2.1, h2.2, e1, e2]
  · exact List.Perm.cons _ (List.Perm.swap _ _ _)
  · rw [elevationPass_eq_foldl]
    decide
  · rw [elevationPass_eq_foldl]
    decide

/-- C14, at the two data rows of the specification in both orders. -/
theorem passes_perm_witness :
    pavedPass [headerRecord,
        mkRecord "" "100" "highway=track tracktype=grade2 surface=gravel",
        mkRecord "" "300" "highway=residential surface=asphalt"]
      = pavedPass [headerRecord,
        mkRecord "" "300" "highway=residential surface=asphalt",
        mkRecord "" "100" "highway=track tracktype=grade2 surface=gravel"] :=
  (passes_perm headerRecord
    [mkRecord "" "100" "highway=track tracktype=grade2 surface=gravel",
     mkRecord "" "300" "highway=residential surface=asphalt"]
    [mkRecord "" "300" "highway=residential surface=asphalt",
     mkRecord "" "100" "highway=track tracktype=grade2 surface=gravel"]
    (List.Perm.swap _ _ _)).2.1

/-! ## Empty tokens -/

theorem dropEmpty_insert (pre post : List String) :
    dropEmpty (pre ++ "" :: post) = dropEmpty (pre ++ post) := by
  induction pre with
  | nil => simp [dropEmpty]
  | cons t pre ih =>
    rw [List.cons_append, List.cons_append, dropEmpty, dropEmpty, ih]

theorem lastWithPrefix_dropEmpty (p : String) (hp : hasPrefix "" p = false)
    (ts : List String) (label : String) :
    lastWithPrefix p (dropEmpty ts) label = lastWithPrefix p ts label := by
  induction ts generalizing label with
  | nil => rfl
  | cons t ts ih =>
    by_cases ht : t = ""
    · subst ht
      simp only [dropEmpty, if_true, lastWithPrefix, hp]
      exact ih label
    · simp only [dropEmpty, ht, if_false, lastWithPrefix]
      split <;> exact ih _

theorem findTracktype_dropEmpty (hi : String) (ts : List String) :
    findTracktype hi (dropEmpty ts) = findTracktype hi ts := by
  induction ts with
  | nil => rfl
  | cons t ts ih =>
    by_cases ht : t = ""
    · subst ht
      have h0 : hasPrefix "" "tracktype=" = false := by decide
      simp only [dropEmpty, if_true, findTracktype, h0]
      exact ih
    · simp only [dropEmpty, ht, if_false, findTracktype]
      split
      · rfl
      · exact ih

theorem isPaved_dropEmpty (ts : List String) (h : String) :
    isPaved (dropEmpty ts) h = isPaved ts h := by
  induction ts with
  | nil => rfl
  | cons t ts ih =>
    by_cases ht : t = ""
    · subst ht
      have h0 : hasPrefix "" "surface=" = false := by decide
      rw [dropEmpty, if_pos rfl, ih]
      conv_rhs => unfold isPaved
      simp only [h0]
      rfl
    · rw [dropEmpty, if_neg ht]
      unfold isPaved
      rw [ih]

theorem getHighwayIdentifierLoop_dropEmpty (W rest : List String) (hi : String) :
    getHighwayIdentifierLoop (dropEmpty W) (dropEmpty rest) hi
      = getHighwayIdentifierLoop W rest hi := by
  induction rest generalizing hi with
  | nil => rfl
  | cons t rest ih =>
    by_cases ht : t = ""
    · subst ht
      have h0 : hasPrefix "" "highway" = false := by decide
      simp only [dropEmpty, if_true, getHighwayIdentifierLoop, h0]
      exact ih hi
    · simp only [dropEmpty, ht, if_false, getHighwayIdentifierLoop, findTracktype_dropEmpty]
      split
      · split <;> exact ih _
      · exact ih _

theorem getHighwayIdentifier_dropEmpty (ts : List String) :
    getHighwayIdentifier (dropEmpty ts) = getHighwayIdentifier ts :=
  getHighwayIdentifierLoop_dropEmpty ts ts ""

theorem surfaceLabel_dropEmpty (ts : List String) :
    surfaceLabel (dropEmpty ts) = surfaceLabel ts := by
  unfold surfaceLabel
  simp only [lastWithPrefix_dropEmpty "surface" (by decide), getHighwayIdentifier_dropEmpty,
    isPaved_dropEmpty]

/-- C15: an empty way-tags field splits into the one token `""`; for that list the highway
identifier is empty, `isPaved` is true, the surface label is `default=paved` and the
smoothness, mtb:scale and sac_scale labels are `default=unknown`; and two token lists that
differ only by empty-string tokens, wherever these stand, have the same six classifier
results. -/
theorem emptyTokens_spec :
    (∀ r : Record, r.wayTags = "" → waytagsOf r = [""]) ∧
    (getHighwayIdentifier [""] = "" ∧
      isPaved [""] (getHighwayIdentifier [""]) = true ∧
      surfaceLabel [""] = "default=paved" ∧
      smoothnessLabel [""] = "default=unknown" ∧
      mtbScaleLabel [""] = "default=unknown" ∧
      sacScaleLabel [""] = "default=unknown") ∧
    (∀ ts1 ts2 : List String, dropEmpty ts1 = dropEmpty ts2 →
      getHighwayIdentifier ts1 = getHighwayIdentifier ts2 ∧
      (∀ h, isPaved ts1 h = isPaved ts2 h) ∧
      isPaved ts1 (getHighwayIdentifier ts1) = isPaved ts2 (getHighwayIdentifier ts2) ∧
      surfaceLabel ts1 = surfaceLabel ts2 ∧
      smoothnessLabel ts1 = smoothnessLabel ts2 ∧
      mtbScaleLabel ts1 = mtbScaleLabel ts2 ∧
      sacScaleLabel ts1 = sacScaleLabel ts2) ∧
    (∀ pre post : List String, dropEmpty (pre ++ "" :: post) = dropEmpty (pre ++ post)) := by
  refine ⟨?_, ⟨by decide, by decide, by decide, by decide, by decide, by decide⟩, ?_,
    dropEmpty_insert⟩
  · intro r hr
    rw [waytagsOf, hr]
    decide
  · intro ts1 ts2 h
    have e1 : getHighwayIdentifier ts1 = getHighwayIdentifier ts2 := by
      rw [← getHighwayIdentifier_dropEmpty ts1, h, getHighwayIdentifier_dropEmpty]
    have e2 : ∀ hw, isPaved ts1 hw = isPaved ts2 hw := by
      intro hw
      rw [← isPaved_dropEmpty ts1, h, isPaved_dropEmpty]
    refine ⟨e1, e2, ?_, ?_, ?_, ?_, ?_⟩
    · rw [e1, e2]
    · rw [← surfaceLabel_dropEmpty ts1, h, surfaceLabel_dropEmpty]
    · unfold smoothnessLabel
      rw [← lastWithPrefix_dropEmpty "smoothness" (by decide) ts1, h,
        lastWithPrefix_dropEmpty "smoothness" (by decide)]
    · unfold mtbScaleLabel
      rw [← lastWithPrefix_dropEmpty "mtb:scale" (by decide) ts1, h,
        lastWithPrefix_dropEmpty "mtb:scale" (by decide)]
    · unfold sacScaleLabel
      rw [← lastWithPrefix_dropEmpty "sac_scale" (by decide) ts1, h,
        lastWithPrefix_dropEmpty "sac_scale" (by decide)]

/-- C15, at a way-tags field with a doubled and a trailing space. -/
theorem emptyTokens_spec_witness :
    getHighwayIdentifier (split "highway=track  tracktype=grade2 " ' ')
      = getHighwayIdentifier ["highway=track", "tracktype=grade2"] :=
  (emptyTokens_spec.2.2.1 (split "highway=track  tracktype=grade2 " ' ')
    ["highway=track", "tracktype=grade2"] (by decide)).1

/-! ## Balance of ascent and descent -/

theorem ascentOf_nonneg (vs : List Int) : 0 ≤ ascentOf vs := by
  induction vs with
  | nil => simp [ascentOf]
  | cons a rest ih =>
    cases rest with
    | nil => simp [ascentOf]
    | cons b rest =>
      simp only [ascentOf]
      omega

theorem descentOf_nonpos (vs : List Int) : descentOf vs ≤ 0 := by
  induction vs with
  | nil => simp [descentOf]
  | cons a rest ih =>
    cases rest with
    | nil => simp [descentOf]
    | cons b rest =>
      simp only [descentOf]
      omega

theorem ascentOf_add_descentOf (vs : List Int) (first last : Int)
    (hf : vs.head? = some first) (hl : vs.getLast? = some last) :
    ascentOf vs + descentOf vs = last - first := by
  induction vs generalizing first with
  | nil => simp at hf
  | cons a rest ih =>
    cases rest with
    | nil =>
      simp only [List.head?_cons, Option.some.injEq] at hf
      simp only [List.getLast?_singleton, Option.some.injEq] at hl
      simp only [ascentOf, descentOf]
      omega
    | cons b rest =>
      simp only [List.head?_cons, Option.some.injEq] at hf
      rw [List.getLast?_cons_cons] at hl
      have h := ih b rfl hl
      simp only [ascentOf, descentOf]
      omega

theorem variation_from_head (a : Int) (rest : List Int) :
    ∀ v ∈ a :: rest, v - a ≤ ascentOf (a :: rest) - descentOf (a :: rest) ∧
      a - v ≤ ascentOf (a :: rest) - descentOf (a :: rest) := by
  induction rest generalizing a with
  | nil =>
    intro v hv
    simp only [List.mem_singleton] at hv
    simp only [ascentOf, descentOf]
    omega
  | cons b rest ih =>
    intro v hv
    have h1 := ascentOf_nonneg (b :: rest)
    have h2 := descentOf_nonpos (b :: rest)
    simp only [ascentOf, descentOf]
    rcases List.mem_cons.mp hv with rfl | hv
    · omega
    · have h3 := ih b v hv
      omega

theorem variation_bound (vs : List Int) :
    ∀ u ∈ vs, ∀ v ∈ vs, u - v ≤ ascentOf vs - descentOf vs := by
  induction vs with
  | nil => intro u hu; simp at hu
  | cons a rest ih =>
    intro u hu v hv
    rcases List.mem_cons.mp hu with rfl | hu1
    · exact (variation_from_head u rest v hv).2
    · rcases List.mem_cons.mp hv with rfl | hv1
      · exact (variation_from_head v rest u hu).1
      · have h := ih u hu1 v hv1
        cases rest with
        | nil => simp at hu1
        | cons b rest =>
          simp only [ascentOf, descentOf] at h ⊢
          omega

/-- C16 fails as stated: for the elevations -430 and 9223372036854775806, both below the
maximum `int` and valid, `metersUphill + metersDownhill` is -9223372036854775380 while the
last valid elevation minus the first is 9223372036854776236, and
`metersUphill - metersDownhill` is below `altitudeMetersMax - altitudeMetersMin`. -/
theorem elevationPass_balance_counterexample :
    (∀ r ∈ [mkRecord "-430" "" "", mkRecord "9223372036854775806" "" ""],
      elevationOf r < maxInt) ∧
    (∃ r ∈ [mkRecord "-430" "" "", mkRecord "9223372036854775806" "" ""],
      -430 ≤ elevationOf r) ∧
    validElevations [mkRecord "-430" "" "", mkRecord "9223372036854775806" "" ""]
      = [-430, 9223372036854775806] ∧
    (elevationPass [headerRecord, mkRecord "-430" "" "",
        mkRecord "9223372036854775806" "" ""]).metersUphill
      + (elevationPass [headerRecord, mkRecord "-430" "" "",
        mkRecord "9223372036854775806" "" ""]).metersDownhill = -9223372036854775380 ∧
    (9223372036854775806 : Int) - (-430) = 9223372036854776236 ∧
    ¬ ((elevationPass [headerRecord, mkRecord "-430" "" "",
        mkRecord "9223372036854775806" "" ""]).metersUphill
      - (elevationPass [headerRecord, mkRecord "-430" "" "",
        mkRecord "9223372036854775806" "" ""]).metersDownhill
      ≥ (elevationPass [headerRecord, mkRecord "-430" "" "",
        mkRecord "9223372036854775806" "" ""]).altitudeMetersMax
      - (elevationPass [headerRecord, mkRecord "-430" "" "",
        mkRecord "9223372036854775806" "" ""]).altitudeMetersMin) := by
  refine ⟨by decide, by decide, by decide, by decide, by decide, by decide⟩

/-- C16, amended: when all parsed elevations are below the maximum `int`, at least one is
valid, and the sums of the positive and of the non-positive differences of consecutive
valid elevations are `int` values (no overflow), then after the elevation pass
`metersUphill + metersDownhill` is the last valid elevation minus the first one and
`metersUphill - metersDownhill ≥ altitudeMetersMax - altitudeMetersMin`; without the
condition on the sums, `altitudeMetersMax - altitudeMetersMin ≥ 0` still holds and
`metersUphill + metersDownhill` agrees with last minus first up to wrap-around. -/
theorem elevationPass_balance (header : Record) (rows : List Record)
    (hmax : ∀ r ∈ rows, elevationOf r < maxInt)
    (hvalid : ∃ r ∈ rows, -430 ≤ elevationOf r) :
    (InIntRange (ascentOf (validElevations rows)) →
      InIntRange (descentOf (validElevations rows)) →
      (∀ first last, (validElevations rows).head? = some first →
        (validElevations rows).getLast? = some last →
        (elevationPass (header :: rows)).metersUphill
          + (elevationPass (header :: rows)).metersDownhill = last - first) ∧
      (elevationPass (header :: rows)).metersUphill
          - (elevationPass (header :: rows)).metersDownhill
        ≥ (elevationPass (header :: rows)).altitudeMetersMax
          - (elevationPass (header :: rows)).altitudeMetersMin) ∧
    (elevationPass (header :: rows)).altitudeMetersMax
      - (elevationPass (header :: rows)).altitudeMetersMin ≥ 0 ∧
    (∀ first last, (validElevations rows).head? = some first →
      (validElevations rows).getLast? = some last →
      wrapInt ((elevationPass (header :: rows)).metersUphill
          + (elevationPass (header :: rows)).metersDownhill) = wrapInt (last - first)) := by
  have hes : ∀ e ∈ rows.map elevationOf, e < maxInt := by
    intro e he
    obtain ⟨r, hr, rfl⟩ := List.mem_map.mp he
    exact hmax r hr
  have hv : ∃ e ∈ rows.map elevationOf, ¬ e < deepestPointOnLand := by
    obtain ⟨r, hr, hr2⟩ := hvalid
    refine ⟨elevationOf r, List.mem_map_of_mem _ hr, ?_⟩
    unfold deepestPointOnLand
    omega
  obtain ⟨h1, h2, h3, h4, h5, h6⟩ := foldl_elevationUpdate_init _ hes hv
  rw [← elevationPass_eq_foldl header, ← validElevations_eq] at h1 h2 h3 h4 h5 h6
  refine ⟨?_, ?_, ?_⟩
  · intro hup hdown
    rw [wrapInt_of_inIntRange hup] at h1
    rw [wrapInt_of_inIntRange hdown] at h2
    constructor
    · intro first last hf hl
      rw [h1, h2]
      exact ascentOf_add_descentOf _ first last hf hl
    · rw [h1, h2]
      exact variation_bound _ _ h5 _ h3
  · have := h4 _ h5
    omega
  · intro first last hf hl
    rw [h1, h2, wrapInt_add_wrapInt, ascentOf_add_descentOf _ first last hf hl]

/-- C16, amended, at the five elevations of the specification: 60 + (-30) = 130 - 100. -/
theorem elevationPass_balance_witness :
    (elevationPass [headerRecord, mkRecord "100" "" "", mkRecord "150" "" "",
        mkRecord "120" "" "", mkRecord "-500" "" "", mkRecord "130" "" ""]).metersUphill
      + (elevationPass [headerRecord, mkRecord "100" "" "", mkRecord "150" "" "",
        mkRecord "120" "" "", mkRecord "-500" "" "", mkRecord "130" "" ""]).metersDownhill
      = 130 - 100 :=
  ((elevationPass_balance headerRecord [mkRecord "100" "" "", mkRecord "150" "" "",
      mkRecord "120" "" "", mkRecord "-500" "" "", mkRecord "130" "" ""]
    (by decide) (by decide)).1 (by decide) (by decide)).1 100 130 (by decide) (by decide)

/-! ## The marker of the unset state -/

theorem foldl_elevationStep_invalid (skipped : List Record) (s : ElevationState)
    (h : ∀ x ∈ skipped, elevationOf x < -430) : skipped.foldl elevationStep s = s := by
  induction skipped with
  | nil => rfl
  | cons x rest ih =>
    have hx : elevationStep s x = s :=
      elevationUpdate_invalid s _ (h x (List.mem_cons_self _ _))
    rw [List.foldl_cons, hx]
    exact ih (fun y hy => h y (List.mem_cons_of_mem _ hy))

/-- C17: the maximum `int` is the marker of the unset state, so a row whose parsed
elevation is the maximum `int` leaves `lastElevation` at the marker; the next row with an
elevation of at least -430 then overwrites `altitudeMetersMin` and `altitudeMetersMax`
with its own elevation and adds nothing to ascent or descent.  For the elevations 100,
9223372036854775807, 50 the pass ends with min 50 and max 50, although all three rows are
valid and the first two had been processed. -/
theorem elevationPass_sentinel (s : ElevationState) (r r2 : Record) (skipped : List Record)
    (hr : elevationOf r = maxInt) (hskip : ∀ x ∈ skipped, elevationOf x < -430)
    (hr2 : -430 ≤ elevationOf r2) :
    elevationInit.lastElevation = maxInt ∧
    (elevationStep s r).lastElevation = maxInt ∧
    skipped.foldl elevationStep (elevationStep s r) = elevationStep s r ∧
    (elevationStep (skipped.foldl elevationStep (elevationStep s r)) r2).altitudeMetersMin
      = elevationOf r2 ∧
    (elevationStep (skipped.foldl elevationStep (elevationStep s r)) r2).altitudeMetersMax
      = elevationOf r2 ∧
    (elevationStep (skipped.foldl elevationStep (elevationStep s r)) r2).metersUphill
      = (elevationStep s r).metersUphill ∧
    (elevationStep (skipped.foldl elevationStep (elevationStep s r)) r2).metersDownhill
      = (elevationStep s r).metersDownhill ∧
    (validElevations [mkRecord "100" "" "", mkRecord "9223372036854775807" "" "",
        mkRecord "50" "" ""] = [100, 9223372036854775807, 50] ∧
      elevationPass [headerRecord, mkRecord "100" "" "",
        mkRecord "9223372036854775807" "" ""]
        = { lastElevation := 9223372036854775807, metersDownhill := 0,
            metersUphill := 9223372036854775707, altitudeMetersMin := 100,
            altitudeMetersMax := 9223372036854775807 } ∧
      elevationPass [headerRecord, mkRecord "100" "" "",
        mkRecord "9223372036854775807" "" "", mkRecord "50" "" ""]
        = { lastElevation := 50, metersDownhill := 0,
            metersUphill := 9223372036854775707, altitudeMetersMin := 50,
            altitudeMetersMax := 50 }) := by
  have hvalid : ¬ (maxInt < deepestPointOnLand) := by decide
  have h1 : (elevationStep s r).lastElevation = maxInt := by
    unfold elevationStep
    rw [hr]
    by_cases hs : s.lastElevation = maxInt
    · rw [elevationUpdate_first s _ hvalid hs]
    · exact (elevationUpdate_next s _ hvalid hs).1
  have h2 := foldl_elevationStep_invalid skipped (elevationStep s r) hskip
  have hv2 : ¬ (elevationOf r2 < deepestPointOnLand) := by
    unfold deepestPointOnLand
    omega
  have h3 := elevationUpdate_first (elevationStep s r) (elevationOf r2) hv2 h1
  have h4 : elevationStep (elevationStep s r) r2
      = elevationUpdate (elevationStep s r) (elevationOf r2) := rfl
  rw [h2, h4, h3]
  exact ⟨rfl, h1, rfl, rfl, rfl, rfl, rfl, by decide, by decide, by decide⟩

/-- C17, at the elevations 100, 9223372036854775807, -500, 50 of four rows. -/
theorem elevationPass_sentinel_witness :
    (elevationStep ([mkRecord "-500" "" ""].foldl elevationStep
      (elevationStep (elevationStep elevationInit (mkRecord "100" "" ""))
        (mkRecord "9223372036854775807" "" ""))) (mkRecord "50" "" "")).altitudeMetersMax
      = 50 :=
  (elevationPass_sentinel (elevationStep elevationInit (mkRecord "100" "" ""))
    (mkRecord "9223372036854775807" "" "") (mkRecord "50" "" "") [mkRecord "-500" "" ""]
    (by decide) (by decide) (by decide)).2.2.2.2.1.trans (by decide)

/-! ## Spaces in the highway identifier -/

theorem splitChars_no_sep (sep : Char) (cs : List Char) :
    ∀ l ∈ splitChars sep cs, sep ∉ l := by
  induction cs with
  | nil =>
    intro l hl
    simp only [splitChars, List.mem_singleton] at hl
    subst hl
    exact List.not_mem_nil sep
  | cons c cs ih =>
    intro l hl
    unfold splitChars at hl
    by_cases hc : c = sep
    · simp only [hc, if_true, List.mem_cons] at hl
      rcases hl with rfl | hl
      · exact List.not_mem_nil sep
      · exact ih l hl
    · simp only [hc, if_false] at hl
      cases hsp : splitChars sep cs with
      | nil =>
        rw [hsp] at hl
        simp only [List.mem_singleton] at hl
        subst hl
        simp only [List.mem_singleton]
        exact fun h => hc h.symm
      | cons t ts =>
        rw [hsp] at hl ih
        simp only [List.mem_cons] at hl
        rcases hl with rfl | hl
        · have ht := ih t (List.mem_cons_self _ _)
          simp only [List.mem_cons, not_or]
          exact ⟨fun h => hc h.symm, ht⟩
        · exact ih l (List.mem_cons_of_mem _ hl)

theorem split_no_sep (s : String) (sep : Char) : ∀ t ∈ split s sep, sep ∉ t.data := by
  intro t ht
  unfold split at ht
  obtain ⟨l, hl, rfl⟩ := List.mem_map.mp ht
  exact splitChars_no_sep sep s.data l hl

theorem findTracktype_shape (hi : String) (ts : List String) :
    findTracktype hi ts = hi ∨ ∃ g, findTracktype hi ts = hi ++ " (" ++ g ++ ")" := by
  induction ts with
  | nil => exact Or.inl rfl
  | cons t ts ih =>
    unfold findTracktype
    split
    · exact Or.inr ⟨_, rfl⟩
    · exact ih

theorem getHighwayIdentifierLoop_shape (W all rest : List String) (hi : String)
    (hrest : ∀ t ∈ rest, t ∈ all)
    (hhi : hi = "" ∨ hi ∈ all ∨ ∃ g, hi = "highway=track (" ++ g ++ ")") :
    getHighwayIdentifierLoop W rest hi = "" ∨ getHighwayIdentifierLoop W rest hi ∈ all ∨
      ∃ g, getHighwayIdentifierLoop W rest hi = "highway=track (" ++ g ++ ")" := by
  induction rest generalizing hi with
  | nil => exact hhi
  | cons t rest ih =>
    have ht : t ∈ all := hrest t (List.mem_cons_self _ _)
    have hr : ∀ x ∈ rest, x ∈ all := fun x hx => hrest x (List.mem_cons_of_mem _ hx)
    unfold getHighwayIdentifierLoop
    split
    · split
      · rename_i htrack
        apply ih _ hr
        rcases findTracktype_shape t W with h | ⟨g, h⟩
        · rw [h]; exact Or.inr (Or.inl ht)
        · rw [h, htrack]; exact Or.inr (Or.inr ⟨g, rfl⟩)
      · exact ih _ hr (Or.inr (Or.inl ht))
    · exact ih _ hr hhi

theorem getHighwayIdentifier_shape (ts : List String) :
    getHighwayIdentifier ts = "" ∨ getHighwayIdentifier ts ∈ ts ∨
      ∃ g, getHighwayIdentifier ts = "highway=track (" ++ g ++ ")" :=
  getHighwayIdentifierLoop_shape ts ts ts "" (fun _ h => h) (Or.inl rfl)

theorem getHighwayIdentifier_split_space (s : String)
    (h : ' ' ∈ (getHighwayIdentifier (split s ' ')).data) :
    ∃ g, getHighwayIdentifier (split s ' ') = "highway=track (" ++ g ++ ")" := by
  rcases getHighwayIdentifier_shape (split s ' ') with h1 | h1 | h1
  · rw [h1] at h
    exact absurd h (by decide)
  · exact absurd h (split_no_sep s ' ' _ h1)
  · exact h1

theorem getHighwayIdentifier_split_not_service (s : String) :
    getHighwayIdentifier (split s ' ') ∉ ["highway=service (grade2)",
      "highway=service (grade3)", "highway=service (grade4)", "highway=service (grade5)"] := by
  intro hmem
  have hsp : ' ' ∈ (getHighwayIdentifier (split s ' ')).data := by
    simp only [List.mem_cons, List.mem_singleton, List.not_mem_nil, or_false] at hmem
    rcases hmem with h | h | h | h <;> rw [h] <;> decide
  obtain ⟨g, hg⟩ := getHighwayIdentifier_split_space s hsp
  have hp : hasPrefix (getHighwayIdentifier (split s ' ')) "highway=track (" = true := by
    rw [hg, String.append_assoc]
    exact hasPrefix_append _ _
  simp only [List.mem_cons, List.mem_singleton, List.not_mem_nil, or_false] at hmem
  rcases hmem with h | h | h | h <;> rw [h] at hp <;> exact absurd hp (by decide)

/-- C18: for every way-tags string, the highway identifier of its tokens contains a space
only if it has the form `highway=track (g)`; it is never one of `highway=service (grade2)`
.. `highway=service (grade5)`, so no pass calls `isPaved` with one of these four
identifiers, and a row tagged `highway=service tracktype=grade3` without a surface tag is
counted as paved. -/
theorem highwayIdentifier_space (s : String) :
    (' ' ∈ (getHighwayIdentifier (split s ' ')).data →
      ∃ g, getHighwayIdentifier (split s ' ') = "highway=track (" ++ g ++ ")") ∧
    getHighwayIdentifier (split s ' ') ∉ ["highway=service (grade2)",
      "highway=service (grade3)", "highway=service (grade4)", "highway=service (grade5)"] ∧
    (∀ record : Record, record.wayTags = s →
      getHighwayIdentifier (waytagsOf record) ∉ ["highway=service (grade2)",
        "highway=service (grade3)", "highway=service (grade4)",
        "highway=service (grade5)"]) ∧
    (getHighwayIdentifier (split "highway=service tracktype=grade3" ' ') = "highway=service" ∧
      isPaved (split "highway=service tracktype=grade3" ' ')
        (getHighwayIdentifier (split "highway=service tracktype=grade3" ' ')) = true ∧
      pavedPass [headerRecord, mkRecord "" "100" "highway=service tracktype=grade3"]
        = { highwaysPaved := 100, highwaysUnpaved := 0 } ∧
      isPaved (split "highway=service tracktype=grade3" ' ') "highway=service (grade3)"
        = false) := by
  refine ⟨getHighwayIdentifier_split_space s, getHighwayIdentifier_split_not_service s, ?_,
    by decide, by decide, by decide, by decide⟩
  intro record hr
  rw [waytagsOf, hr]
  exact getHighwayIdentifier_split_not_service s

/-- C18, at a way-tags string whose identifier is `highway=track (grade3)`. -/
theorem highwayIdentifier_space_witness :
    ∃ g, getHighwayIdentifier (split "highway=track tracktype=grade3" ' ')
      = "highway=track (" ++ g ++ ")" :=
  (highwayIdentifier_space "highway=track tracktype=grade3").1 (by decide)

/-! ## Surface label against the paved/unpaved decision -/

theorem not_surface_eq (x : String) (h : hasPrefix x "surface" = false) (w : String) :
    x ≠ "surface=" ++ w := by
  intro hx
  have e : "surface=" ++ w = "surface" ++ ("=" ++ w) := by
    rw [← String.append_assoc]
    rfl
  rw [hx, e, hasPrefix_append] at h
  exact absurd h (by decide)

/-- C19: the surface label and the paved/unpaved decision can disagree: for the tokens
`surface=asphalt`, `surface=gravel` the label is `surface=gravel`, a value of the unpaved
set, while `isPaved` is true for every highway identifier.  When exactly one token starts
with `surface` and it is `surface=` followed by a listed value, `isPaved` is true exactly
when that value, the value in the surface label, is in the paved set; when no token starts
with `surface`, `isPaved` is true exactly when the label is `default=paved`. -/
theorem surfaceLabel_isPaved (pre post : List String) (v h : String)
    (hpre : ∀ x ∈ pre, hasPrefix x "surface" = false)
    (hpost : ∀ x ∈ post, hasPrefix x "surface" = false)
    (hv : v ∈ pavedSurfaces ∨ v ∈ unpavedSurfaces) :
    (surfaceLabel ["surface=asphalt", "surface=gravel"] = "surface=gravel" ∧
      "gravel" ∈ unpavedSurfaces ∧ "gravel" ∉ pavedSurfaces ∧
      ∀ hw, isPaved ["surface=asphalt", "surface=gravel"] hw = true) ∧
    (surfaceLabel (pre ++ ("surface=" ++ v) :: post) = "surface=" ++ v ∧
      (isPaved (pre ++ ("surface=" ++ v) :: post) h = true ↔ v ∈ pavedSurfaces) ∧
      (isPaved (pre ++ ("surface=" ++ v) :: post) h = true ↔
        cutPrefix (surfaceLabel (pre ++ ("surface=" ++ v) :: post)) "surface="
          ∈ pavedSurfaces)) ∧
    (isPaved (pre ++ post) (getHighwayIdentifier (pre ++ post)) = true ↔
      surfaceLabel (pre ++ post) = "default=paved") := by
  have hsurf : hasPrefix ("surface=" ++ v) "surface" = true := by
    have e : "surface=" ++ v = "surface" ++ ("=" ++ v) := by
      rw [← String.append_assoc]
      rfl
    rw [e]
    exact hasPrefix_append _ _
  have hlabel : surfaceLabel (pre ++ ("surface=" ++ v) :: post) = "surface=" ++ v := by
    have h1 : lastWithPrefix "surface" (pre ++ ("surface=" ++ v) :: post) ""
        = "surface=" ++ v := lastWithPrefix_last "surface" pre post _ "" hsurf hpost
    have h2 : "surface=" ++ v ≠ "" := ne_empty_of_hasPrefix hsurf (by decide)
    simp only [surfaceLabel, h1, h2, if_false]
  have hpaved : isPaved (pre ++ ("surface=" ++ v) :: post) h = decide (v ∈ pavedSurfaces) :=
    isPaved_first pre post v h hv
      (fun x hx w hw => absurd hw (not_surface_eq x (hpre x hx) w))
  refine ⟨⟨by decide, by decide, by decide, ?_⟩, ⟨hlabel, ?_, ?_⟩, ?_⟩
  · intro hw
    exact (isPaved_first [] ["surface=gravel"] "asphalt" hw (Or.inl (by decide))
      (fun x hx => absurd hx (List.not_mem_nil x))).trans (by decide)
  · rw [hpaved]
    simp
  · rw [hpaved, hlabel, cutPrefix_append]
    simp
  · have hnone : ∀ t ∈ pre ++ post, hasPrefix t "surface" = false := by
      intro t ht
      rcases List.mem_append.mp ht with ht | ht
      · exact hpre t ht
      · exact hpost t ht
    have h1 : lastWithPrefix "surface" (pre ++ post) "" = "" :=
      lastWithPrefix_none "surface" (pre ++ post) "" hnone
    cases hp : isPaved (pre ++ post) (getHighwayIdentifier (pre ++ post)) with
    | true => simp [surfaceLabel, h1, hp]
    | false =>
      simp only [surfaceLabel, h1, hp, if_true]
      decide

/-- C19, at a token list whose only `surface` token is `surface=gravel`. -/
theorem surfaceLabel_isPaved_witness :
    (isPaved (["highway=residential"] ++ ("surface=" ++ "gravel") :: ["foot=yes"])
        "highway=residential" = true ↔ "gravel" ∈ pavedSurfaces) :=
  (surfaceLabel_isPaved ["highway=residential"] ["foot=yes"] "gravel" "highway=residential"
    (by decide) (by decide) (Or.inr (by decide))).2.1.2.1

end Routestats
